import Mathlib

/-!
# Volcano scheduler: configuration store and scheduling cycle

A shallow embedding of `pkg/scheduler/conf/scheduler_config.go` and of
`Scheduler.runOnce` in `pkg/scheduler/scheduler.go`.

Conventions of the embedding:

* a Go `string` is a Lean `String` (valid UTF-8 text), a Go slice is a `List`
  with the nil slice represented by `[]`;
* a Go `map[string]string` is an association list with distinct keys, and a
  map that may be nil is an `Option` of it (`none` is the nil map);
* a Go `*bool` is an `Option Bool` (`none` is the nil pointer);
* collaborators that live outside the two files (the YAML decoder, the file
  system, the action registry, change handlers) are parameters;
* effects on collaborators (sessions, actions, metrics) are recorded in a
  trace, in the order in which the code performs them; `klog` output and the
  values of measured durations are not part of the trace.
-/

namespace Volcano

/-! ## Go standard library: `strings.Split`, `strings.TrimSpace` -/

/-- Go's `unicode.IsSpace`: the Latin-1 spaces `\t \n \v \f \r`, space, U+0085,
U+00A0, and the other code points with the White_Space property. -/
def isSpace (c : Char) : Bool :=
  let n := c.toNat
  decide ((0x09 ≤ n ∧ n ≤ 0x0D) ∨ n = 0x20 ∨ n = 0x85 ∨ n = 0xA0 ∨ n = 0x1680 ∨
    (0x2000 ≤ n ∧ n ≤ 0x200A) ∨ n = 0x2028 ∨ n = 0x2029 ∨ n = 0x202F ∨ n = 0x205F ∨
    n = 0x3000)

/-- Characters of `strings.TrimSpace`: leading and trailing white space removed. -/
def trimChars (cs : List Char) : List Char :=
  (cs.dropWhile isSpace).rdropWhile isSpace

/-- Go's `strings.TrimSpace`. -/
def TrimSpace (s : String) : String :=
  ⟨trimChars s.data⟩

/-- Characters of `strings.Split(s, sep)` for a one-character separator: the
pieces of `s` between consecutive separators, one more than there are
separators (so the empty text gives one empty piece). -/
def splitChars (sep : Char) : List Char → List (List Char)
  | [] => [[]]
  | c :: cs =>
    if c = sep then [] :: splitChars sep cs
    else
      match splitChars sep cs with
      | [] => [[c]]
      | seg :: rest => (c :: seg) :: rest

/-- Go's `strings.Split(s, ",")`. -/
def SplitComma (s : String) : List String :=
  (splitChars ',' s.data).map String.mk

/-! ## Go maps -/

/-- Lookup `m[k]` with the presence flag: `none` when the key is absent. -/
def mapGet : List (String × String) → String → Option String
  | [], _ => none
  | (k', v') :: rest, k => if k' = k then some v' else mapGet rest k

/-- Assignment `m[k] = v`: replaces the value of an existing key, adds the
key otherwise. -/
def mapSet : List (String × String) → String → String → List (String × String)
  | [], k, v => [(k, v)]
  | (k', v') :: rest, k, v =>
    if k' = k then (k, v) :: rest else (k', v') :: mapSet rest k v

/-! ## Data model (package `conf`) -/

/-- Modelled from the spec: the declaration of `PluginOption` is not among the
sources. A plugin option is a name plus a fixed set of optional boolean
capability flags; the flag names are those used by `unmarshalSchedulerConf`
(`EnabledHierarchy`) and by `TestLoadSchedulerConf` (the sixteen others). -/
structure PluginOption where
  Name : String
  EnabledJobOrder : Option Bool := none
  EnabledNamespaceOrder : Option Bool := none
  EnabledHierarchy : Option Bool := none
  EnabledJobReady : Option Bool := none
  EnabledJobPipelined : Option Bool := none
  EnabledTaskOrder : Option Bool := none
  EnabledPreemptable : Option Bool := none
  EnabledReclaimable : Option Bool := none
  EnabledQueueOrder : Option Bool := none
  EnabledPredicate : Option Bool := none
  EnabledBestNode : Option Bool := none
  EnabledNodeOrder : Option Bool := none
  EnabledTargetJob : Option Bool := none
  EnabledReservedNodes : Option Bool := none
  EnabledJobEnqueued : Option Bool := none
  EnabledVictim : Option Bool := none
  EnabledJobStarving : Option Bool := none
  deriving DecidableEq, Repr

/-- Modelled from the spec: the declaration of `Tier` is not among the sources.
A tier is an ordered sequence of plugin options. -/
structure Tier where
  Plugins : List PluginOption := []
  deriving DecidableEq, Repr

/-- Modelled from the spec: the declaration of `Configuration` is not among the
sources. A configuration is an argument block that this package passes
through without interpreting it. -/
structure Configuration where
  block : String
  deriving DecidableEq, Repr

/-- Modelled from the spec: the declaration of `SchedulerConfiguration` is not
among the sources. It is the deserialised document: the comma-separated
actions text, the tiers, the configurations and the node-selector mapping
(nil and empty mappings both have length zero and are both `[]`). -/
structure SchedulerConfiguration where
  Actions : String := ""
  Tiers : List Tier := []
  Configurations : List Configuration := []
  NodeSelector : List (String × String) := []
  deriving DecidableEq, Repr

/-- The YAML decoder `yaml.Unmarshal` applied to a fresh
`SchedulerConfiguration`: either an error text or the filled document. -/
abbrev Decoder := String → Except String SchedulerConfiguration

/-- The five values returned by `unmarshalSchedulerConf`; `err = none` is the
nil error. -/
structure Unmarshalled where
  actions : List String
  tiers : List Tier
  configurations : List Configuration
  nodeSelector : Option (List (String × String))
  err : Option String
  deriving DecidableEq, Repr

/-! ## `unmarshalSchedulerConf` -/

/-- The message of the validation error. -/
def conflictError : String := "proportion and drf with hierarchy enabled conflicts"

/-- The inner loop `for j := range tier.Plugins`, on the pair of local flags
`(hdrf, proportion)`. -/
def scanPlugins : List PluginOption → Bool × Bool → Bool × Bool
  | [], flags => flags
  | p :: ps, (hdrf, proportion) =>
    let hdrf := if p.Name = "drf" ∧ p.EnabledHierarchy ≠ none ∧ p.EnabledHierarchy = some true
      then true else hdrf
    let proportion := if p.Name = "proportion" then true else proportion
    scanPlugins ps (hdrf, proportion)

/-- The outer loop `for _, tier := range schedulerConf.Tiers`: the error
returned from inside the loop, if any. -/
def validateTiers : List Tier → Option String
  | [] => none
  | tier :: rest =>
    let flags := scanPlugins tier.Plugins (false, false)
    if flags.1 && flags.2 then some conflictError else validateTiers rest

/-- The loop `for _, actionName := range actionNames`, on the local slice
`actions`. -/
def appendActions : List String → List String → List String
  | [], actions => actions
  | actionName :: rest, actions =>
    let actionName := TrimSpace actionName
    if actionName.length > 0 then appendActions rest (actions ++ [actionName])
    else appendActions rest actions

/-- The loop `for _, lv := range labelValues`, on the map being built. -/
def addLabelValues (labelName : String) :
    List String → List (String × String) → List (String × String)
  | [], m => m
  | lv :: rest, m =>
    let lv := TrimSpace lv
    if lv.length > 0 then addLabelValues labelName rest (mapSet m (labelName ++ ":" ++ lv) "")
    else addLabelValues labelName rest m

/-- The loop `for labelName, labelValue := range schedulerConf.NodeSelector`,
on the map being built; the entries are visited in the order of the list. -/
def addSelectors : List (String × String) → List (String × String) → List (String × String)
  | [], m => m
  | (labelName, labelValue) :: rest, m =>
    addSelectors rest (addLabelValues labelName (SplitComma labelValue) m)

/-- Function `unmarshalSchedulerConf`, with the YAML decoder as a parameter. -/
def unmarshalSchedulerConf (yamlUnmarshal : Decoder) (confStr : String) : Unmarshalled :=
  match yamlUnmarshal confStr with
  | .error e => ⟨[], [], [], none, some e⟩
  | .ok schedulerConf =>
    match validateTiers schedulerConf.Tiers with
    | some e => ⟨[], [], [], none, some e⟩
    | none =>
      let actions := appendActions (SplitComma schedulerConf.Actions) []
      if schedulerConf.NodeSelector.length = 0 then
        ⟨actions, schedulerConf.Tiers, schedulerConf.Configurations, none, none⟩
      else
        let nodeSelectorLabels := addSelectors schedulerConf.NodeSelector []
        ⟨actions, schedulerConf.Tiers, schedulerConf.Configurations, some nodeSelectorLabels, none⟩

/-! ## The configuration store -/

/-- The embedded default document `defaultSchedulerConf`. -/
def defaultSchedulerConf : String :=
  "\nactions: \"enqueue, allocate, backfill\"\ntiers:\n- plugins:\n  - name: priority\n  - name: gang\n  - name: conformance\n- plugins:\n  - name: overcommit\n  - name: drf\n  - name: predicates\n  - name: proportion\n  - name: nodeorder\n"

/-- The contents of the file system at one moment, as seen by
`ioutil.ReadFile`: an error text or the text of the file at that path. -/
abbrev Disk := String → Except String String

/-- Modelled from the spec: the interface `filewatcher.FileWatcher` is declared
in `pkg/filewatcher`, not among the sources. A watcher is identified by the
directory it watches; what its `Events` and `Errors` streams deliver is
given to `WatchSchedulerConf` as a sequence of deliveries. -/
structure FileWatcher where
  dir : String
  deriving DecidableEq, Repr

/-- The ways a call can end without a result: an error value returned to the
caller, or a Go panic. -/
inductive Failure where
  | error (msg : String)
  | panic (msg : String)
  deriving DecidableEq, Repr

/-- Type `SchedulerConfig`, over the type `H` of change handlers. Field
`once` is the done flag of the `sync.Once`; the mutex has no state between
the calls of a sequential run and is left out (the locking of the published
fields is modelled separately, see `Interleaving`). -/
structure SchedulerConfig (H : Type) where
  once : Bool
  schedulerConf : String
  fileWatcher : Option FileWatcher
  Plugins : List Tier
  Configurations : List Configuration
  Actions : List String
  NodeSelector : Option (List (String × String))
  handlers : List H

/-- Function `readSchedulerConf`. -/
def readSchedulerConf (disk : Disk) (confPath : String) : Except String String :=
  match disk confPath with
  | .error err => .error err
  | .ok dat => .ok dat

/-- The body of `sc.once.Do(...)` in `LoadSchedulerConf`: on the first call the
four fields are assigned from the embedded default, and an error there
panics. -/
def bootstrapOnce {H : Type} (yamlUnmarshal : Decoder) (sc : SchedulerConfig H) :
    Except Failure (SchedulerConfig H) :=
  if sc.once then .ok sc
  else
    let r := unmarshalSchedulerConf yamlUnmarshal defaultSchedulerConf
    let sc := { sc with
      once := true
      Actions := r.actions
      Plugins := r.tiers
      Configurations := r.configurations
      NodeSelector := r.nodeSelector }
    match r.err with
    | some _ => .error (.panic "invalid default configuration")
    | none => .ok sc

/-- Method `LoadSchedulerConf`. The result is the store after the call, or the
panic of the bootstrap. -/
def LoadSchedulerConf {H : Type} (yamlUnmarshal : Decoder) (disk : Disk)
    (sc : SchedulerConfig H) : Except Failure (SchedulerConfig H) :=
  match bootstrapOnce yamlUnmarshal sc with
  | .error f => .error f
  | .ok sc =>
    let read : Except String String :=
      if sc.schedulerConf.length ≠ 0 then readSchedulerConf disk sc.schedulerConf
      else .ok ""
    match read with
    | .error _ => .ok sc
    | .ok config =>
      let r := unmarshalSchedulerConf yamlUnmarshal config
      match r.err with
      | some _ => .ok sc
      | none =>
        .ok { sc with
          Actions := r.actions
          Plugins := r.tiers
          Configurations := r.configurations
          NodeSelector := r.nodeSelector }

/-- Function `NewSchedulerConf`; `dirOf` is `filepath.Dir` and
`newFileWatcher` is `filewatcher.NewFileWatcher`. The fields not named in
the composite literal have their zero values. -/
def NewSchedulerConf {H : Type} (yamlUnmarshal : Decoder) (disk : Disk)
    (dirOf : String → String) (newFileWatcher : String → Except String FileWatcher)
    (schedulerConf : String) : Except Failure (SchedulerConfig H) :=
  let made : Except Failure (Option FileWatcher) :=
    if schedulerConf ≠ "" then
      match newFileWatcher (dirOf schedulerConf) with
      | .error err =>
        .error (.error ("failed creating filewatcher for " ++ schedulerConf ++ ": " ++ err))
      | .ok w => .ok (some w)
    else .ok none
  match made with
  | .error f => .error f
  | .ok watcher =>
    let schedulerConfig : SchedulerConfig H :=
      { once := false
        schedulerConf := schedulerConf
        fileWatcher := watcher
        Plugins := []
        Configurations := []
        Actions := []
        NodeSelector := none
        handlers := [] }
    LoadSchedulerConf yamlUnmarshal disk schedulerConfig

/-- Method `AddConfigChangeHandler`. -/
def AddConfigChangeHandler {H : Type} (sc : SchedulerConfig H) (handler : H) :
    SchedulerConfig H :=
  { sc with handlers := sc.handlers ++ [handler] }

/-! ## The watch loop -/

/-- What one round of the `select` in `WatchSchedulerConf` receives. An event
carries its `fsnotify.Op` bit mask and the contents of the file system at the
moment it is handled. -/
inductive Delivery where
  | event (op : Nat) (disk : Disk)
  | eventClosed
  | error (msg : String)
  | errorClosed
  | stop

/-- The delivery leaves the watch loop running: an event or a watcher error,
as opposed to a closed stream or the stop signal. -/
def Delivery.continues : Delivery → Bool
  | .event _ _ => true
  | .error _ => true
  | .eventClosed => false
  | .errorClosed => false
  | .stop => false

/-- The calls made by the watch loop, in order. -/
inductive WatchCall (H : Type) where
  | load
  | handler (h : H)
  deriving DecidableEq, Repr

/-- Bit `fsnotify.Create`. -/
def fsCreate : Nat := 1

/-- Bit `fsnotify.Write`. -/
def fsWrite : Nat := 2

/-- The test `event.Op&fsnotify.Write == fsnotify.Write ||
event.Op&fsnotify.Create == fsnotify.Create`. -/
def isWriteOrCreate (op : Nat) : Bool :=
  op &&& fsWrite == fsWrite || op &&& fsCreate == fsCreate

/-- The loop `for _, handler := range sc.handlers`: the range expression is
evaluated once, each handler is called with the store and may change it
(`runHandler h` is what the call of `h` does to the store). -/
def callHandlers {H : Type} (runHandler : H → SchedulerConfig H → SchedulerConfig H) :
    List H → SchedulerConfig H → SchedulerConfig H × List (WatchCall H)
  | [], sc => (sc, [])
  | handler :: rest, sc =>
    let out := callHandlers runHandler rest (runHandler handler sc)
    (out.1, WatchCall.handler handler :: out.2)

/-- The `case event, ok := <-eventCh` branch for a received event. -/
def onEvent {H : Type} (yamlUnmarshal : Decoder)
    (runHandler : H → SchedulerConfig H → SchedulerConfig H) (op : Nat) (disk : Disk)
    (sc : SchedulerConfig H) : Except Failure (SchedulerConfig H × List (WatchCall H)) :=
  if isWriteOrCreate op then
    match LoadSchedulerConf yamlUnmarshal disk sc with
    | .error f => .error f
    | .ok sc =>
      if sc.handlers.length > 0 then
        let out := callHandlers runHandler sc.handlers sc
        .ok (out.1, WatchCall.load :: out.2)
      else .ok (sc, [WatchCall.load])
  else .ok (sc, [])

/-- The `for { select { ... } }` loop on the sequence of deliveries; when the
sequence is used up the loop is waiting in `select`. The calls made so far
are accumulated in the second argument. -/
def watchLoop {H : Type} (yamlUnmarshal : Decoder)
    (runHandler : H → SchedulerConfig H → SchedulerConfig H) :
    List Delivery → SchedulerConfig H → List (WatchCall H) →
      Except Failure (SchedulerConfig H × List (WatchCall H))
  | [], sc, calls => .ok (sc, calls)
  | .event op disk :: rest, sc, calls =>
    match onEvent yamlUnmarshal runHandler op disk sc with
    | .error f => .error f
    | .ok out => watchLoop yamlUnmarshal runHandler rest out.1 (calls ++ out.2)
  | .eventClosed :: _, sc, calls => .ok (sc, calls)
  | .error _ :: rest, sc, calls => watchLoop yamlUnmarshal runHandler rest sc calls
  | .errorClosed :: _, sc, calls => .ok (sc, calls)
  | .stop :: _, sc, calls => .ok (sc, calls)

/-- Method `WatchSchedulerConf`. -/
def WatchSchedulerConf {H : Type} (yamlUnmarshal : Decoder)
    (runHandler : H → SchedulerConfig H → SchedulerConfig H)
    (deliveries : List Delivery) (sc : SchedulerConfig H) :
    Except Failure (SchedulerConfig H × List (WatchCall H)) :=
  if sc.fileWatcher = none then .ok (sc, [])
  else watchLoop yamlUnmarshal runHandler deliveries sc []

/-! ## The scheduling cycle -/

/-- The action registry `framework.GetAction` over a type `A` of actions, with
the method `Name` of an action. -/
structure Registry (A : Type) where
  GetAction : String → Option A
  Name : A → String

/-- Type `Scheduler`, over the types of the cache handle and of the handlers. -/
structure Scheduler (C H : Type) where
  cache : C
  schedulerConfig : SchedulerConfig H
  schedulePeriod : Nat

/-- The calls made to the framework and to the metrics by one cycle. -/
inductive Effect (C A : Type) where
  | openSession (cache : C) (tiers : List Tier) (configurations : List Configuration)
  | execute (action : A)
  | updateActionDuration (name : String)
  | updateE2eDuration
  | closeSession
  deriving DecidableEq, Repr

/-- The loop `for _, actionName := range actionNames` of `runOnce`. -/
def runActions {C A : Type} (reg : Registry A) : List String → List (Effect C A)
  | [] => []
  | actionName :: rest =>
    match reg.GetAction actionName with
    | some action =>
      Effect.execute action :: Effect.updateActionDuration (reg.Name action) ::
        runActions reg rest
    | none => runActions reg rest

/-- Method `runOnce`: the calls of the function body, followed by the deferred
call `framework.CloseSession(ssn)`, which runs when the function returns. -/
def runOnce {C A H : Type} (reg : Registry A) (pc : Scheduler C H) : List (Effect C A) :=
  let actionNames := pc.schedulerConfig.Actions
  let plugins := pc.schedulerConfig.Plugins
  let configurations := pc.schedulerConfig.Configurations
  let body : List (Effect C A) :=
    Effect.openSession pc.cache plugins configurations ::
      (runActions reg actionNames ++ [Effect.updateE2eDuration])
  let deferred : List (Effect C A) := [Effect.closeSession]
  body ++ deferred

/-! ## Locking of the published fields

The snapshot of `runOnce` (lines 82-86 of `scheduler.go`) and the publish
step of `LoadSchedulerConf` (lines 90-96 of `scheduler_config.go`) as two
threads over the shared fields of the store, each a sequence of atomic
instructions, run under an arbitrary schedule. -/

namespace Interleaving

/-- The two mutexes of the program: field `mutex` of `Scheduler` and field
`mutex` of `SchedulerConfig`. -/
inductive Mutex where
  | scheduler
  | config
  deriving DecidableEq, Repr

/-- The two threads: the scheduling cycle and the reload. -/
inductive Thread where
  | cycle
  | reload
  deriving DecidableEq, Repr

/-- Atomic instructions: locking, reads of the published fields into the
locals of `runOnce`, writes of the locals of `LoadSchedulerConf` into the
published fields. -/
inductive Instr where
  | lock (m : Mutex)
  | unlock (m : Mutex)
  | readActions
  | readPlugins
  | readConfigurations
  | writeActions
  | writePlugins
  | writeConfigurations
  | writeNodeSelector
  deriving DecidableEq, Repr

/-- The four published fields. -/
structure Policy where
  Actions : List String
  Plugins : List Tier
  Configurations : List Configuration
  NodeSelector : Option (List (String × String))
  deriving DecidableEq, Repr

/-- The three locals `actionNames`, `plugins`, `configurations` of `runOnce`. -/
structure Snapshot where
  actionNames : List String
  plugins : List Tier
  configurations : List Configuration
  deriving DecidableEq, Repr

/-- The snapshot that reads all three fields of one policy. -/
def Policy.snapshot (p : Policy) : Snapshot :=
  ⟨p.Actions, p.Plugins, p.Configurations⟩

/-- The snapshot section of a cycle that takes mutex `m`. -/
def snapshotUnder (m : Mutex) : List Instr :=
  [Instr.lock m, Instr.readActions, Instr.readPlugins, Instr.readConfigurations, Instr.unlock m]

/-- Lines 82-86 of `runOnce`: the snapshot is taken under `pc.mutex`, the mutex
of the `Scheduler`. -/
def runOnceSnapshot : List Instr :=
  snapshotUnder Mutex.scheduler

/-- Lines 90-96 of `LoadSchedulerConf`: the publish step is done under
`sc.mutex`, the mutex of the `SchedulerConfig`. -/
def loadPublish : List Instr :=
  [Instr.lock Mutex.config, Instr.writeActions, Instr.writePlugins, Instr.writeConfigurations,
    Instr.writeNodeSelector, Instr.unlock Mutex.config]

/-- State of the two threads: the published fields, the holder of each mutex,
the instructions each thread has left, the locals of the cycle and the
candidate policy of the reload. -/
structure Machine where
  published : Policy
  schedulerHeld : Option Thread
  configHeld : Option Thread
  cycleCode : List Instr
  reloadCode : List Instr
  locals : Snapshot
  candidate : Policy
  deriving DecidableEq, Repr

/-- Holder of a mutex. -/
def Machine.holder (s : Machine) : Mutex → Option Thread
  | Mutex.scheduler => s.schedulerHeld
  | Mutex.config => s.configHeld

/-- Update of the holder of a mutex. -/
def Machine.setHolder (s : Machine) (m : Mutex) (h : Option Thread) : Machine :=
  match m with
  | Mutex.scheduler => { s with schedulerHeld := h }
  | Mutex.config => { s with configHeld := h }

/-- Effect of one instruction executed by thread `t`; `none` when the thread
is blocked on a held mutex. -/
def exec (t : Thread) (i : Instr) (s : Machine) : Option Machine :=
  match i with
  | Instr.lock m => if s.holder m = none then some (s.setHolder m (some t)) else none
  | Instr.unlock m => some (s.setHolder m none)
  | Instr.readActions => some { s with locals := { s.locals with actionNames := s.published.Actions } }
  | Instr.readPlugins => some { s with locals := { s.locals with plugins := s.published.Plugins } }
  | Instr.readConfigurations =>
    some { s with locals := { s.locals with configurations := s.published.Configurations } }
  | Instr.writeActions =>
    some { s with published := { s.published with Actions := s.candidate.Actions } }
  | Instr.writePlugins =>
    some { s with published := { s.published with Plugins := s.candidate.Plugins } }
  | Instr.writeConfigurations =>
    some { s with published := { s.published with Configurations := s.candidate.Configurations } }
  | Instr.writeNodeSelector =>
    some { s with published := { s.published with NodeSelector := s.candidate.NodeSelector } }

/-- One step of thread `t`: its next instruction, if it has one and is not
blocked. -/
def step (t : Thread) (s : Machine) : Option Machine :=
  match t with
  | Thread.cycle =>
    match s.cycleCode with
    | [] => none
    | i :: rest => (exec t i s).map fun s1 => { s1 with cycleCode := rest }
  | Thread.reload =>
    match s.reloadCode with
    | [] => none
    | i :: rest => (exec t i s).map fun s1 => { s1 with reloadCode := rest }

/-- Run of a schedule, the list of the threads that take the successive steps. -/
def run : List Thread → Machine → Option Machine
  | [], s => some s
  | t :: ts, s =>
    match step t s with
    | none => none
    | some s1 => run ts s1

/-- Start of a race between a cycle whose snapshot section is `cycleCode` and a
reload that publishes `new` over `old`. -/
def start (cycleCode : List Instr) (old new : Policy) : Machine :=
  { published := old
    schedulerHeld := none
    configHeld := none
    cycleCode := cycleCode
    reloadCode := loadPublish
    locals := ⟨[], [], []⟩
    candidate := new }

/-- Both threads have run to the end of their sections. -/
def Machine.finished (s : Machine) : Bool :=
  s.cycleCode.isEmpty && s.reloadCode.isEmpty

end Interleaving

/-! ## Sample documents

Concrete documents and a decoder defined on them, used to evaluate the
definitions above on the texts of the program and of its test. -/

/-- The document that the embedded default text deserialises to. -/
def defaultDocument : SchedulerConfiguration :=
  { Actions := "enqueue, allocate, backfill"
    Tiers :=
      [ { Plugins := [{ Name := "priority" }, { Name := "gang" }, { Name := "conformance" }] },
        { Plugins := [{ Name := "overcommit" }, { Name := "drf" }, { Name := "predicates" },
            { Name := "proportion" }, { Name := "nodeorder" }] } ] }

/-- The text `configuration` of `TestLoadSchedulerConf`. -/
def testConfiguration : String :=
  "\nactions: \"enqueue, allocate, backfill\"\ntiers:\n- plugins:\n  - name: priority\n  - name: gang\n  - name: conformance\n- plugins:\n  - name: drf\n  - name: predicates\n  - name: proportion\n  - name: nodeorder\nnodeSelector:\n  app: app1\n  demo: demo1,demo2\n"

/-- The document that `testConfiguration` deserialises to. -/
def testDocument : SchedulerConfiguration :=
  { Actions := "enqueue, allocate, backfill"
    Tiers :=
      [ { Plugins := [{ Name := "priority" }, { Name := "gang" }, { Name := "conformance" }] },
        { Plugins := [{ Name := "drf" }, { Name := "predicates" }, { Name := "proportion" },
            { Name := "nodeorder" }] } ]
    NodeSelector := [("app", "app1"), ("demo", "demo1,demo2")] }

/-- A plugin option as `TestLoadSchedulerConf` expects it: the sixteen flags of
`expectedTiers` point to `true`, `EnabledHierarchy` is not set. -/
def expectedPlugin (name : String) : PluginOption :=
  { Name := name
    EnabledJobOrder := some true
    EnabledNamespaceOrder := some true
    EnabledJobReady := some true
    EnabledJobPipelined := some true
    EnabledTaskOrder := some true
    EnabledPreemptable := some true
    EnabledReclaimable := some true
    EnabledQueueOrder := some true
    EnabledPredicate := some true
    EnabledBestNode := some true
    EnabledNodeOrder := some true
    EnabledTargetJob := some true
    EnabledReservedNodes := some true
    EnabledJobEnqueued := some true
    EnabledVictim := some true
    EnabledJobStarving := some true }

/-- The value `expectedTiers` of `TestLoadSchedulerConf`. -/
def expectedTiers : List Tier :=
  [ { Plugins := [expectedPlugin "priority", expectedPlugin "gang", expectedPlugin "conformance"] },
    { Plugins := [expectedPlugin "drf", expectedPlugin "predicates", expectedPlugin "proportion",
        expectedPlugin "nodeorder"] } ]

/-- A text with hierarchical drf and proportion in one tier. -/
def conflictText : String :=
  "actions: \"allocate\"\ntiers:\n- plugins:\n  - name: drf\n    enableHierarchy: true\n  - name: proportion\n"

/-- The document that `conflictText` deserialises to. -/
def conflictDocument : SchedulerConfiguration :=
  { Actions := "allocate"
    Tiers := [ { Plugins := [{ Name := "drf", EnabledHierarchy := some true },
      { Name := "proportion" }] } ] }

/-- A text with hierarchical drf in the first tier and proportion in the
second. -/
def splitTiersText : String :=
  "actions: \"allocate\"\ntiers:\n- plugins:\n  - name: drf\n    enableHierarchy: true\n- plugins:\n  - name: proportion\n"

/-- The document that `splitTiersText` deserialises to. -/
def splitTiersDocument : SchedulerConfiguration :=
  { Actions := "allocate"
    Tiers := [ { Plugins := [{ Name := "drf", EnabledHierarchy := some true }] },
      { Plugins := [{ Name := "proportion" }] } ] }

/-- A decoder defined on the sample texts: the empty text leaves the target
document at its zero value, the four sample texts give their documents, and
every other text is reported as an error. -/
def sampleDecoder : Decoder := fun text =>
  if text = "" then .ok {}
  else if text = defaultSchedulerConf then .ok defaultDocument
  else if text = testConfiguration then .ok testDocument
  else if text = conflictText then .ok conflictDocument
  else if text = splitTiersText then .ok splitTiersDocument
  else .error "yaml: unmarshal errors"

/-- The path of the configuration file in the sample runs. -/
def samplePath : String := "/etc/volcano.conf"

/-- A file system with the test configuration at `samplePath`. -/
def validDisk : Disk := fun path =>
  if path = samplePath then .ok testConfiguration else .error "no such file or directory"

/-- A file system with a malformed document at `samplePath`. -/
def brokenDisk : Disk := fun path =>
  if path = samplePath then .ok "actions: [unclosed" else .error "no such file or directory"

/-- A file system with the conflicting document at `samplePath`. -/
def conflictDisk : Disk := fun path =>
  if path = samplePath then .ok conflictText else .error "no such file or directory"

/-- A file system without any file. -/
def emptyDisk : Disk := fun _ => .error "no such file or directory"

/-- Directory of the sample path. -/
def sampleDirOf : String → String := fun _ => "/etc"

/-- A watcher source that can watch every directory. -/
def sampleNewFileWatcher : String → Except String FileWatcher := fun dir => .ok ⟨dir⟩

/-- The store after `NewSchedulerConf` has loaded the test configuration from
`samplePath`. -/
def loadedStore : SchedulerConfig Nat :=
  { once := true
    schedulerConf := samplePath
    fileWatcher := some ⟨"/etc"⟩
    Plugins := testDocument.Tiers
    Configurations := []
    Actions := ["enqueue", "allocate", "backfill"]
    NodeSelector := some [("app:app1", ""), ("demo:demo1", ""), ("demo:demo2", "")]
    handlers := [] }

/-- Deliveries before the event under study: a write with a valid file, a
watcher error, and a remove event. -/
def sampleEarlier : List Delivery :=
  [Delivery.event fsWrite validDisk, Delivery.error "watcher error", Delivery.event 4 validDisk]

/-- Deliveries after the event under study: a write, the stop signal, and a
write that is no longer received. -/
def sampleLater : List Delivery :=
  [Delivery.event fsWrite validDisk, Delivery.stop, Delivery.event fsWrite validDisk]

/-! ## Properties named by the specification -/

/-- The conflict rule in the words of the specification: the tier contains a
plugin named `drf` whose hierarchy flag is present and true, and a plugin
named `proportion`. -/
def TierConflict (t : Tier) : Prop :=
  (∃ p ∈ t.Plugins, p.Name = "drf" ∧ p.EnabledHierarchy = some true) ∧
    (∃ p ∈ t.Plugins, p.Name = "proportion")

/-- Position `i` of the list holds an element that satisfies `p`. -/
def holdsAt {α : Type} (p : α → Bool) (l : List α) (i : Nat) : Prop :=
  (l.get? i).any p = true

/-- Some element satisfying `p` stands before some element satisfying `q`. -/
def occursBefore {α : Type} (p q : α → Bool) (l : List α) : Prop :=
  ∃ i, i < l.length ∧ ∃ j, j < l.length ∧ i < j ∧ holdsAt p l i ∧ holdsAt q l j

instance (t : Tier) : Decidable (TierConflict t) := by
  unfold TierConflict
  infer_instance

instance {α : Type} (p : α → Bool) (l : List α) (i : Nat) : Decidable (holdsAt p l i) := by
  unfold holdsAt
  infer_instance

instance {α : Type} (p q : α → Bool) (l : List α) : Decidable (occursBefore p q l) := by
  unfold occursBefore
  infer_instance

/-- The action of an `execute` call. -/
def Effect.executed {C A : Type} : Effect C A → Option A
  | Effect.execute a => some a
  | _ => none

/-- The name of an `updateActionDuration` call. -/
def Effect.durationName {C A : Type} : Effect C A → Option String
  | Effect.updateActionDuration n => some n
  | _ => none

/-- The call opens a session. -/
def Effect.isOpen {C A : Type} : Effect C A → Bool
  | Effect.openSession _ _ _ => true
  | _ => false

/-- The call closes the session. -/
def Effect.isClose {C A : Type} : Effect C A → Bool
  | Effect.closeSession => true
  | _ => false

/-- The call records the duration of the whole cycle. -/
def Effect.isE2e {C A : Type} : Effect C A → Bool
  | Effect.updateE2eDuration => true
  | _ => false

/-- The call executes an action. -/
def Effect.isExecute {C A : Type} : Effect C A → Bool
  | Effect.execute _ => true
  | _ => false

/-- A registry that knows the single action `a`; an action is identified with
its name. -/
def sampleRegistry : Registry String :=
  { GetAction := fun name => if name = "a" then some "a" else none
    Name := fun action => action }

/-- A store that publishes the actions `a` and `b`. -/
def sampleStore : SchedulerConfig Unit :=
  { once := true
    schedulerConf := ""
    fileWatcher := none
    Plugins := []
    Configurations := []
    Actions := ["a", "b"]
    NodeSelector := none
    handlers := [] }

/-- A scheduler over `sampleStore`. -/
def sampleScheduler : Scheduler Unit Unit :=
  { cache := ()
    schedulerConfig := sampleStore
    schedulePeriod := 1 }

/-- The policy published before the sample reload: the embedded default. -/
def oldPolicy : Interleaving.Policy :=
  { Actions := ["enqueue", "allocate", "backfill"]
    Plugins := defaultDocument.Tiers
    Configurations := []
    NodeSelector := none }

/-- The candidate policy of the sample reload: the test configuration. -/
def newPolicy : Interleaving.Policy :=
  { Actions := ["allocate"]
    Plugins := testDocument.Tiers
    Configurations := [⟨"allocate"⟩]
    NodeSelector := some [("app:app1", "")] }

/-- A schedule in which the reload publishes between the first and the second
read of the cycle. -/
def tearingSchedule : List Interleaving.Thread :=
  [.cycle, .cycle, .reload, .reload, .reload, .reload, .reload, .reload, .cycle, .cycle, .cycle]


/-! # Theorems -/

set_option maxRecDepth 100000

/-! ## Validation -/

theorem scanPlugins_eq (ps : List PluginOption) (a b : Bool) :
    scanPlugins ps (a, b) =
      (a || ps.any (fun p => decide (p.Name = "drf" ∧ p.EnabledHierarchy = some true)),
        b || ps.any (fun p => decide (p.Name = "proportion"))) := by
  induction ps generalizing a b with
  | nil => simp [scanPlugins]
  | cons p ps ih =>
    simp only [scanPlugins, ih, List.any_cons]
    by_cases h1 : p.Name = "drf" <;> by_cases h2 : p.EnabledHierarchy = some true <;>
      by_cases h3 : p.Name = "proportion" <;> simp [h1, h2, h3]

theorem scanPlugins_conflict (t : Tier) :
    ((scanPlugins t.Plugins (false, false)).1 && (scanPlugins t.Plugins (false, false)).2) = true ↔
      TierConflict t := by
  rw [scanPlugins_eq]
  simp [TierConflict, List.any_eq_true]

theorem validateTiers_none_iff (ts : List Tier) :
    validateTiers ts = none ↔ ∀ t ∈ ts, ¬ TierConflict t := by
  induction ts with
  | nil => simp [validateTiers]
  | cons t ts ih =>
    simp only [validateTiers, List.mem_cons, forall_eq_or_imp]
    by_cases h : TierConflict t
    · have h2 := (scanPlugins_conflict t).2 h
      simp [h2, h]
    · have h2 : ¬ ((scanPlugins t.Plugins (false, false)).1 &&
          (scanPlugins t.Plugins (false, false)).2) = true := fun hc =>
        h ((scanPlugins_conflict t).1 hc)
      simp [h2, ih, h]

theorem validateTiers_isSome_iff (ts : List Tier) :
    (validateTiers ts).isSome = true ↔ ∃ t ∈ ts, TierConflict t := by
  have h := validateTiers_none_iff ts
  cases hv : validateTiers ts with
  | none =>
    have := h.1 hv
    simp only [Option.isSome_none, Bool.false_eq_true, false_iff, not_exists, not_and]
    exact this
  | some e =>
    simp only [Option.isSome_some, true_iff]
    by_contra hc
    have : validateTiers ts = none := h.2 (by
      intro t ht hcon
      exact hc ⟨t, ht, hcon⟩)
    rw [hv] at this
    cases this

/-! ## Text functions -/

theorem trimChars_prefix_of_dropWhile (cs : List Char) :
    trimChars cs <+: cs.dropWhile isSpace :=
  List.rdropWhile_prefix isSpace _

theorem trimChars_sublist (cs : List Char) : (trimChars cs).Sublist cs :=
  (trimChars_prefix_of_dropWhile cs).sublist.trans (List.dropWhile_suffix isSpace).sublist

theorem trimChars_head (cs : List Char) (c : Char) (h : (trimChars cs).head? = some c) :
    isSpace c = false := by
  obtain ⟨t, ht⟩ := trimChars_prefix_of_dropWhile cs
  cases htr : trimChars cs with
  | nil => rw [htr] at h; cases h
  | cons a rest =>
    rw [htr] at h ht
    simp only [List.head?_cons, Option.some.injEq] at h
    subst h
    have hne : cs.dropWhile isSpace ≠ [] := by
      rw [← ht]; simp
    have hnot := List.head_dropWhile_not isSpace cs hne
    have hhead : (cs.dropWhile isSpace).head hne = a := by
      simp [← ht]
    rw [hhead] at hnot
    simpa using hnot

theorem trimChars_last (cs : List Char) (c : Char) (h : (trimChars cs).getLast? = some c) :
    isSpace c = false := by
  have hne : trimChars cs ≠ [] := by
    intro hnil
    rw [hnil] at h
    cases h
  have hnot := List.rdropWhile_last_not isSpace (cs.dropWhile isSpace) hne
  have hl : (trimChars cs).getLast hne = c := by
    rw [List.getLast?_eq_getLast _ hne] at h
    exact Option.some.inj h
  have hl2 : (List.rdropWhile isSpace (cs.dropWhile isSpace)).getLast hne = c := hl
  rw [hl2] at hnot
  simpa using hnot

theorem splitChars_ne_nil (sep : Char) (cs : List Char) : splitChars sep cs ≠ [] := by
  cases cs with
  | nil => simp [splitChars]
  | cons c cs =>
    simp only [splitChars]
    split
    · simp
    · split <;> simp

theorem splitChars_no_sep (sep : Char) (cs : List Char) :
    ∀ seg ∈ splitChars sep cs, sep ∉ seg := by
  induction cs with
  | nil => simp [splitChars]
  | cons c cs ih =>
    intro seg hseg
    simp only [splitChars] at hseg
    by_cases hc : c = sep
    · simp only [hc, if_true, List.mem_cons] at hseg
      rcases hseg with h | h
      · simp [h]
      · exact ih seg h
    · simp only [hc, if_false] at hseg
      cases hsp : splitChars sep cs with
      | nil => exact absurd hsp (splitChars_ne_nil sep cs)
      | cons g rest =>
        rw [hsp] at hseg ih
        simp only [List.mem_cons] at hseg
        rcases hseg with h | h
        · subst h
          have hg := ih g (by simp)
          simp only [List.mem_cons, not_or]
          exact ⟨fun e => hc e.symm, hg⟩
        · exact ih seg (by simp [h])

theorem splitChars_of_no_sep (sep : Char) (g : List Char) (hg : sep ∉ g) :
    splitChars sep g = [g] := by
  induction g with
  | nil => simp [splitChars]
  | cons c g ih =>
    simp only [List.mem_cons, not_or] at hg
    have hc : ¬ c = sep := fun e => hg.1 e.symm
    simp [splitChars, hc, ih hg.2]

theorem splitChars_append_sep (sep : Char) (g rest : List Char) (hg : sep ∉ g) :
    splitChars sep (g ++ sep :: rest) = g :: splitChars sep rest := by
  induction g with
  | nil => simp [splitChars]
  | cons c g ih =>
    simp only [List.mem_cons, not_or] at hg
    have hc : ¬ c = sep := fun e => hg.1 e.symm
    simp [splitChars, hc, ih hg.2]

theorem intercalate_cons_cons (sep : Char) (a b : List Char) (rest : List (List Char)) :
    List.intercalate [sep] (a :: b :: rest) = a ++ sep :: List.intercalate [sep] (b :: rest) := by
  simp [List.intercalate, List.intersperse]

theorem intercalate_single (sep : Char) (a : List Char) :
    List.intercalate [sep] [a] = a := by
  simp [List.intercalate, List.intersperse]

/-- Splitting is the inverse of joining: a text written as comma-free pieces
joined by the separator splits into exactly those pieces. -/
theorem splitChars_intercalate (sep : Char) (segs : List (List Char)) (hne : segs ≠ [])
    (hsegs : ∀ g ∈ segs, sep ∉ g) :
    splitChars sep (List.intercalate [sep] segs) = segs := by
  induction segs with
  | nil => exact absurd rfl hne
  | cons a rest ih =>
    cases rest with
    | nil =>
      rw [intercalate_single]
      exact splitChars_of_no_sep sep a (hsegs a (by simp))
    | cons b rest =>
      rw [intercalate_cons_cons, splitChars_append_sep sep a _ (hsegs a (by simp))]
      rw [ih (by simp) (fun g hg => hsegs g (List.mem_cons_of_mem _ hg))]

/-- Joining is the inverse of splitting. -/
theorem intercalate_splitChars (sep : Char) (cs : List Char) :
    List.intercalate [sep] (splitChars sep cs) = cs := by
  induction cs with
  | nil => simp [splitChars, List.intercalate, List.intersperse]
  | cons c cs ih =>
    simp only [splitChars]
    by_cases hc : c = sep
    · simp only [hc, if_true]
      cases hsp : splitChars sep cs with
      | nil => exact absurd hsp (splitChars_ne_nil sep cs)
      | cons g rest =>
        rw [intercalate_cons_cons, ← hsp, ih]
        simp
    · simp only [hc, if_false]
      cases hsp : splitChars sep cs with
      | nil => exact absurd hsp (splitChars_ne_nil sep cs)
      | cons g rest =>
        rw [hsp] at ih
        cases rest with
        | nil =>
          rw [intercalate_single] at ih
          simp [intercalate_single, ih]
        | cons g2 rest =>
          rw [intercalate_cons_cons] at ih
          simp only [intercalate_cons_cons, List.cons_append]
          rw [ih]

theorem appendActions_eq (names acc : List String) :
    appendActions names acc =
      acc ++ (names.map TrimSpace).filter (fun a => decide (a.length > 0)) := by
  induction names generalizing acc with
  | nil => simp [appendActions]
  | cons n names ih =>
    simp only [appendActions, List.map_cons, List.filter_cons]
    by_cases h : (TrimSpace n).length > 0
    · simp [h, ih]
    · simp [h, ih]

theorem string_length_pos_iff (s : String) : s.length > 0 ↔ s ≠ "" := by
  cases s with
  | mk d =>
    cases d with
    | nil => simp [String.length]
    | cons c cs =>
      simp [String.length]
      intro h
      have := congrArg String.data h
      simp at this

/-! ## Maps -/

theorem mem_keys_mapSet (m : List (String × String)) (k v k' : String) :
    k' ∈ (mapSet m k v).map Prod.fst ↔ k' = k ∨ k' ∈ m.map Prod.fst := by
  induction m with
  | nil => simp [mapSet]
  | cons e rest ih =>
    obtain ⟨a, b⟩ := e
    simp only [mapSet]
    by_cases h : a = k
    · simp only [h, if_true, List.map_cons, List.mem_cons]
      tauto
    · simp only [h, if_false, List.map_cons, List.mem_cons, ih]
      tauto

theorem nodup_keys_mapSet (m : List (String × String)) (k v : String)
    (h : (m.map Prod.fst).Nodup) : ((mapSet m k v).map Prod.fst).Nodup := by
  induction m with
  | nil => simp [mapSet]
  | cons e rest ih =>
    obtain ⟨a, b⟩ := e
    simp only [List.map_cons, List.nodup_cons] at h
    simp only [mapSet]
    by_cases hk : a = k
    · simp only [hk, if_true, List.map_cons, List.nodup_cons]
      exact ⟨hk ▸ h.1, h.2⟩
    · simp only [hk, if_false, List.map_cons, List.nodup_cons]
      refine ⟨fun hc => ?_, ih h.2⟩
      rcases (mem_keys_mapSet rest k v a).1 hc with e | e
      · exact hk e
      · exact h.1 e

theorem mem_mapSet (m : List (String × String)) (k v : String) (e : String × String)
    (h : e ∈ mapSet m k v) : e = (k, v) ∨ e ∈ m := by
  induction m with
  | nil => simpa [mapSet] using h
  | cons e' rest ih =>
    obtain ⟨a, b⟩ := e'
    simp only [mapSet] at h
    by_cases hk : a = k
    · simp only [hk, if_true, List.mem_cons] at h
      rcases h with h | h
      · exact Or.inl h
      · exact Or.inr (List.mem_cons_of_mem _ h)
    · simp only [hk, if_false, List.mem_cons] at h
      rcases h with h | h
      · exact Or.inr (by simp [h])
      · rcases ih h with h2 | h2
        · exact Or.inl h2
        · exact Or.inr (List.mem_cons_of_mem _ h2)

theorem mapGet_eq_none_iff (m : List (String × String)) (k : String) :
    mapGet m k = none ↔ k ∉ m.map Prod.fst := by
  induction m with
  | nil => simp [mapGet]
  | cons e rest ih =>
    obtain ⟨a, b⟩ := e
    simp only [mapGet, List.map_cons, List.mem_cons, not_or]
    by_cases hk : a = k
    · simp [hk]
    · simp only [hk, if_false, ih]
      constructor
      · intro h
        exact ⟨fun e => hk e.symm, h⟩
      · intro h
        exact h.2

theorem mapGet_mem (m : List (String × String)) (k v : String) (h : mapGet m k = some v) :
    (k, v) ∈ m := by
  induction m with
  | nil => simp [mapGet] at h
  | cons e rest ih =>
    obtain ⟨a, b⟩ := e
    simp only [mapGet] at h
    by_cases hk : a = k
    · simp only [hk, if_true, Option.some.injEq] at h
      simp [hk, h]
    · simp only [hk, if_false] at h
      exact List.mem_cons_of_mem _ (ih h)

/-! ## Node selector -/

/-- The keys added for one label: one for each non-empty trimmed value. -/
theorem addLabelValues_keys (labelName : String) (vals : List String)
    (m : List (String × String)) (k : String) :
    k ∈ (addLabelValues labelName vals m).map Prod.fst ↔
      k ∈ m.map Prod.fst ∨
        ∃ v ∈ vals, (TrimSpace v).length > 0 ∧ k = labelName ++ ":" ++ TrimSpace v := by
  induction vals generalizing m with
  | nil => simp [addLabelValues]
  | cons v vals ih =>
    simp only [addLabelValues]
    by_cases hv : (TrimSpace v).length > 0
    · simp only [hv, if_true, ih, mem_keys_mapSet, List.mem_cons, exists_eq_or_imp, true_and]
      tauto
    · simp only [hv, if_false, ih, List.mem_cons, exists_eq_or_imp, false_and, false_or]

theorem addLabelValues_nodup (labelName : String) (vals : List String)
    (m : List (String × String)) (h : (m.map Prod.fst).Nodup) :
    ((addLabelValues labelName vals m).map Prod.fst).Nodup := by
  induction vals generalizing m with
  | nil => simpa [addLabelValues] using h
  | cons v vals ih =>
    simp only [addLabelValues]
    split
    · exact ih _ (nodup_keys_mapSet m _ _ h)
    · exact ih _ h

theorem addLabelValues_values (labelName : String) (vals : List String)
    (m : List (String × String)) (h : ∀ e ∈ m, e.2 = "") :
    ∀ e ∈ addLabelValues labelName vals m, e.2 = "" := by
  induction vals generalizing m with
  | nil => simpa [addLabelValues] using h
  | cons v vals ih =>
    simp only [addLabelValues]
    split
    · apply ih
      intro e he
      rcases mem_mapSet m _ _ e he with h1 | h1
      · rw [h1]
      · exact h e h1
    · exact ih _ h

theorem addSelectors_keys (entries m : List (String × String)) (k : String) :
    k ∈ (addSelectors entries m).map Prod.fst ↔
      k ∈ m.map Prod.fst ∨
        ∃ e ∈ entries, ∃ v ∈ SplitComma e.2,
          (TrimSpace v).length > 0 ∧ k = e.1 ++ ":" ++ TrimSpace v := by
  induction entries generalizing m with
  | nil => simp [addSelectors]
  | cons e entries ih =>
    obtain ⟨a, b⟩ := e
    simp only [addSelectors, ih, addLabelValues_keys, List.mem_cons, exists_eq_or_imp, or_assoc]

theorem addSelectors_nodup (entries m : List (String × String))
    (h : (m.map Prod.fst).Nodup) : ((addSelectors entries m).map Prod.fst).Nodup := by
  induction entries generalizing m with
  | nil => simpa [addSelectors] using h
  | cons e entries ih =>
    obtain ⟨a, b⟩ := e
    simp only [addSelectors]
    exact ih _ (addLabelValues_nodup a _ m h)

theorem addSelectors_values (entries m : List (String × String))
    (h : ∀ e ∈ m, e.2 = "") : ∀ e ∈ addSelectors entries m, e.2 = "" := by
  induction entries generalizing m with
  | nil => simpa [addSelectors] using h
  | cons e entries ih =>
    obtain ⟨a, b⟩ := e
    simp only [addSelectors]
    exact ih _ (addLabelValues_values a _ m h)

/-! ## Results of `unmarshalSchedulerConf` -/

theorem unmarshal_of_decode_error (yamlUnmarshal : Decoder) (confStr e : String)
    (h : yamlUnmarshal confStr = .error e) :
    unmarshalSchedulerConf yamlUnmarshal confStr = ⟨[], [], [], none, some e⟩ := by
  simp [unmarshalSchedulerConf, h]

theorem unmarshal_of_conflict (yamlUnmarshal : Decoder) (confStr : String)
    (c : SchedulerConfiguration) (h : yamlUnmarshal confStr = .ok c)
    (hc : ∃ t ∈ c.Tiers, TierConflict t) :
    ∃ e, unmarshalSchedulerConf yamlUnmarshal confStr = ⟨[], [], [], none, some e⟩ := by
  have hs := (validateTiers_isSome_iff c.Tiers).2 hc
  cases hv : validateTiers c.Tiers with
  | none => rw [hv] at hs; cases hs
  | some e => exact ⟨e, by simp [unmarshalSchedulerConf, h, hv]⟩

theorem unmarshal_of_valid (yamlUnmarshal : Decoder) (confStr : String)
    (c : SchedulerConfiguration) (h : yamlUnmarshal confStr = .ok c)
    (hc : ¬ ∃ t ∈ c.Tiers, TierConflict t) :
    unmarshalSchedulerConf yamlUnmarshal confStr =
      ⟨appendActions (SplitComma c.Actions) [], c.Tiers, c.Configurations,
        if c.NodeSelector.length = 0 then none else some (addSelectors c.NodeSelector []),
        none⟩ := by
  have hv : validateTiers c.Tiers = none := by
    rw [validateTiers_none_iff]
    intro t ht hcon
    exact hc ⟨t, ht, hcon⟩
  simp only [unmarshalSchedulerConf, h, hv]
  split <;> rfl

theorem unmarshal_accepts_iff (yamlUnmarshal : Decoder) (confStr : String)
    (c : SchedulerConfiguration) (h : yamlUnmarshal confStr = .ok c) :
    (unmarshalSchedulerConf yamlUnmarshal confStr).err = none ↔
      ¬ ∃ t ∈ c.Tiers, TierConflict t := by
  by_cases hc : ∃ t ∈ c.Tiers, TierConflict t
  · obtain ⟨e, he⟩ := unmarshal_of_conflict yamlUnmarshal confStr c h hc
    simp [he, hc]
  · simp [unmarshal_of_valid yamlUnmarshal confStr c h hc, hc]

/-! ## Claims about `unmarshalSchedulerConf` -/

theorem filter_trim_mk (segs : List (List Char)) :
    ((segs.map String.mk).map TrimSpace).filter (fun a => decide (a.length > 0)) =
      ((segs.map trimChars).filter (fun g => decide (g ≠ []))).map String.mk := by
  induction segs with
  | nil => rfl
  | cons g segs ih =>
    simp only [List.map_cons, List.filter_cons, ih]
    by_cases h : trimChars g = []
    · simp [TrimSpace, h, String.length]
    · have hp : 0 < (trimChars g).length := List.length_pos.2 h
      simp [TrimSpace, h, String.length, hp]

theorem mem_actions_shape (s a : String)
    (h : a ∈ ((SplitComma s).map TrimSpace).filter (fun a => decide (a.length > 0))) :
    a ≠ "" ∧ (∀ ch, a.data.head? = some ch → isSpace ch = false) ∧
      (∀ ch, a.data.getLast? = some ch → isSpace ch = false) ∧ ',' ∉ a.data := by
  simp only [List.mem_filter, List.mem_map, SplitComma, decide_eq_true_eq] at h
  obtain ⟨⟨x, ⟨seg, hseg, hx⟩, hax⟩, hlen⟩ := h
  subst hx
  subst hax
  refine ⟨(string_length_pos_iff _).1 hlen, ?_, ?_, ?_⟩
  · intro ch hch
    exact trimChars_head seg ch hch
  · intro ch hch
    exact trimChars_last seg ch hch
  · intro hmem
    exact splitChars_no_sep ',' s.data seg hseg ((trimChars_sublist seg).subset hmem)

/-- C5: for an accepted document with actions text `s`, the returned action
list is the list of the whitespace-trimmed comma-separated segments of `s`
with the empty ones dropped, in order and with duplicates kept: it is that
list for the segments computed by `strings.Split`, and for every way of
writing `s` as comma-free pieces joined by commas; no returned name is
empty, starts or ends with white space, or contains a comma. -/
theorem unmarshal_actions_trimmed_segments (yamlUnmarshal : Decoder) (confStr : String)
    (c : SchedulerConfiguration) (hdec : yamlUnmarshal confStr = .ok c)
    (hacc : (unmarshalSchedulerConf yamlUnmarshal confStr).err = none) :
    (unmarshalSchedulerConf yamlUnmarshal confStr).actions =
        ((SplitComma c.Actions).map TrimSpace).filter (fun a => decide (a ≠ "")) ∧
      (∀ segs : List (List Char), segs ≠ [] → (∀ g ∈ segs, ',' ∉ g) →
        c.Actions.data = List.intercalate [','] segs →
        (unmarshalSchedulerConf yamlUnmarshal confStr).actions =
          ((segs.map trimChars).filter (fun g => decide (g ≠ []))).map String.mk) ∧
      (∀ a ∈ (unmarshalSchedulerConf yamlUnmarshal confStr).actions,
        a ≠ "" ∧ (∀ ch, a.data.head? = some ch → isSpace ch = false) ∧
          (∀ ch, a.data.getLast? = some ch → isSpace ch = false) ∧ ',' ∉ a.data) := by
  have hnc := (unmarshal_accepts_iff yamlUnmarshal confStr c hdec).1 hacc
  have hr := unmarshal_of_valid yamlUnmarshal confStr c hdec hnc
  have hact : (unmarshalSchedulerConf yamlUnmarshal confStr).actions =
      ((SplitComma c.Actions).map TrimSpace).filter (fun a => decide (a.length > 0)) := by
    rw [hr]
    simp [appendActions_eq]
  have hfun : (fun a : String => decide (a ≠ "")) = (fun a : String => decide (a.length > 0)) := by
    funext a
    by_cases h : a = ""
    · subst h; rfl
    · have := (string_length_pos_iff a).2 h
      simp [h, this]
  refine ⟨by rw [hact, hfun], ?_, ?_⟩
  · intro segs hne hsegs hjoin
    rw [hact]
    have hsplit : SplitComma c.Actions = segs.map String.mk := by
      simp only [SplitComma, hjoin]
      rw [splitChars_intercalate ',' segs hne hsegs]
    rw [hsplit, filter_trim_mk]
  · intro a ha
    rw [hact] at ha
    exact mem_actions_shape c.Actions a ha

/-- Witness of C5: the embedded default document, whose actions text
`enqueue, allocate, backfill` gives the three names. -/
theorem unmarshal_actions_trimmed_segments_witness :
    sampleDecoder defaultSchedulerConf = .ok defaultDocument ∧
      (unmarshalSchedulerConf sampleDecoder defaultSchedulerConf).err = none ∧
      (unmarshalSchedulerConf sampleDecoder defaultSchedulerConf).actions =
        ["enqueue", "allocate", "backfill"] :=
  ⟨by rfl, by decide,
    (unmarshal_actions_trimmed_segments sampleDecoder defaultSchedulerConf defaultDocument
      (by rfl) (by decide)).1.trans (by decide)⟩

/-- C3: for a document that deserialises successfully, `unmarshalSchedulerConf`
returns an error exactly when some single tier holds both a plugin named
`drf` with its hierarchy flag present and true and a plugin named
`proportion`; when it returns an error the four policy components are all
nil. -/
theorem unmarshal_rejects_iff_tier_conflict (yamlUnmarshal : Decoder) (confStr : String)
    (c : SchedulerConfiguration) (hdec : yamlUnmarshal confStr = .ok c) :
    ((unmarshalSchedulerConf yamlUnmarshal confStr).err ≠ none ↔
        ∃ t ∈ c.Tiers, TierConflict t) ∧
      ((unmarshalSchedulerConf yamlUnmarshal confStr).err ≠ none →
        (unmarshalSchedulerConf yamlUnmarshal confStr).actions = [] ∧
          (unmarshalSchedulerConf yamlUnmarshal confStr).tiers = [] ∧
          (unmarshalSchedulerConf yamlUnmarshal confStr).configurations = [] ∧
          (unmarshalSchedulerConf yamlUnmarshal confStr).nodeSelector = none) := by
  have hiff := unmarshal_accepts_iff yamlUnmarshal confStr c hdec
  constructor
  · constructor
    · intro hne
      by_contra hc
      exact hne (hiff.2 hc)
    · intro hc hnone
      exact hiff.1 hnone hc
  · intro hne
    have hc : ∃ t ∈ c.Tiers, TierConflict t := by
      by_contra hc
      exact hne (hiff.2 hc)
    obtain ⟨e, he⟩ := unmarshal_of_conflict yamlUnmarshal confStr c hdec hc
    rw [he]
    exact ⟨rfl, rfl, rfl, rfl⟩

/-- Witness of C3: hierarchical drf and proportion in one tier are rejected
with nil components; the same two plugins in different tiers are accepted. -/
theorem unmarshal_rejects_iff_tier_conflict_witness :
    sampleDecoder conflictText = .ok conflictDocument ∧
      (unmarshalSchedulerConf sampleDecoder conflictText).err ≠ none ∧
      (unmarshalSchedulerConf sampleDecoder conflictText).tiers = [] ∧
      sampleDecoder splitTiersText = .ok splitTiersDocument ∧
      (unmarshalSchedulerConf sampleDecoder splitTiersText).err = none :=
  ⟨by rfl,
    (unmarshal_rejects_iff_tier_conflict sampleDecoder conflictText conflictDocument (by rfl)).1.2
      ⟨_, List.mem_cons_self _ _, by simp [TierConflict]⟩,
    ((unmarshal_rejects_iff_tier_conflict sampleDecoder conflictText conflictDocument (by rfl)).2
      (by decide)).2.1,
    by rfl, by decide⟩

/-- C6: for an accepted document with node-selector mapping `m`, an empty or
absent `m` gives the nil set; otherwise the returned set is a map whose keys
are exactly the texts `label:v`, for an entry `(label, value)` of `m` and a
non-empty whitespace-trimmed comma-separated segment `v` of `value`, and
every key is mapped to the empty text. -/
theorem unmarshal_nodeSelector_expansion (yamlUnmarshal : Decoder) (confStr : String)
    (c : SchedulerConfiguration) (hdec : yamlUnmarshal confStr = .ok c)
    (hacc : (unmarshalSchedulerConf yamlUnmarshal confStr).err = none) :
    (c.NodeSelector = [] → (unmarshalSchedulerConf yamlUnmarshal confStr).nodeSelector = none) ∧
      (c.NodeSelector ≠ [] →
        ∃ ns, (unmarshalSchedulerConf yamlUnmarshal confStr).nodeSelector = some ns ∧
          (ns.map Prod.fst).Nodup ∧
          (∀ k, k ∈ ns.map Prod.fst ↔
            ∃ e ∈ c.NodeSelector, ∃ v ∈ (SplitComma e.2).map TrimSpace,
              v ≠ "" ∧ k = e.1 ++ ":" ++ v) ∧
          (∀ k ∈ ns.map Prod.fst, mapGet ns k = some "")) := by
  have hnc := (unmarshal_accepts_iff yamlUnmarshal confStr c hdec).1 hacc
  have hr := unmarshal_of_valid yamlUnmarshal confStr c hdec hnc
  constructor
  · intro hm
    rw [hr]
    simp [hm]
  · intro hm
    have hlen : ¬ c.NodeSelector.length = 0 := by
      intro h
      exact hm (List.length_eq_zero.1 h)
    refine ⟨addSelectors c.NodeSelector [], ?_, ?_, ?_, ?_⟩
    · rw [hr]
      simp [hlen]
    · exact addSelectors_nodup c.NodeSelector [] (by simp)
    · intro k
      rw [addSelectors_keys]
      simp only [List.map_nil, List.not_mem_nil, false_or, List.mem_map]
      constructor
      · rintro ⟨e, he, v, hv, hlenv, hk⟩
        exact ⟨e, he, TrimSpace v, ⟨v, hv, rfl⟩, (string_length_pos_iff _).1 hlenv, hk⟩
      · rintro ⟨e, he, v, ⟨x, hx, hxv⟩, hne, hk⟩
        subst hxv
        exact ⟨e, he, x, hx, (string_length_pos_iff _).2 hne, hk⟩
    · intro k hk
      cases hg : mapGet (addSelectors c.NodeSelector []) k with
      | none => exact absurd hk ((mapGet_eq_none_iff _ k).1 hg)
      | some v =>
        have hmem := mapGet_mem _ k v hg
        have hv := addSelectors_values c.NodeSelector [] (by simp) (k, v) hmem
        simp only at hv
        rw [hv]

/-- Witness of C6: the mapping of the test configuration gives the three keys
`app:app1`, `demo:demo1`, `demo:demo2`; the empty document gives the nil
set. -/
theorem unmarshal_nodeSelector_expansion_witness :
    sampleDecoder testConfiguration = .ok testDocument ∧
      (unmarshalSchedulerConf sampleDecoder testConfiguration).err = none ∧
      (unmarshalSchedulerConf sampleDecoder testConfiguration).nodeSelector =
        some [("app:app1", ""), ("demo:demo1", ""), ("demo:demo2", "")] ∧
      (∃ ns, (unmarshalSchedulerConf sampleDecoder testConfiguration).nodeSelector = some ns ∧
        (ns.map Prod.fst).Nodup ∧
        (∀ k, k ∈ ns.map Prod.fst ↔
          ∃ e ∈ testDocument.NodeSelector, ∃ v ∈ (SplitComma e.2).map TrimSpace,
            v ≠ "" ∧ k = e.1 ++ ":" ++ v) ∧
        (∀ k ∈ ns.map Prod.fst, mapGet ns k = some "")) ∧
      (unmarshalSchedulerConf sampleDecoder "").nodeSelector = none :=
  ⟨by rfl, by decide, by decide,
    (unmarshal_nodeSelector_expansion sampleDecoder testConfiguration testDocument (by rfl)
      (by decide)).2 (by decide),
    (unmarshal_nodeSelector_expansion sampleDecoder "" {} (by rfl) (by decide)).1 rfl⟩

/-- C2 (as the code behaves): for an accepted document the tiers are returned
exactly as they were deserialised, so a capability flag that is absent in the
input is nil in the result, not `true`; no defaulting takes place in
`unmarshalSchedulerConf`. -/
theorem unmarshal_returns_tiers_as_decoded (yamlUnmarshal : Decoder) (confStr : String)
    (c : SchedulerConfiguration) (hdec : yamlUnmarshal confStr = .ok c)
    (hacc : (unmarshalSchedulerConf yamlUnmarshal confStr).err = none) :
    (unmarshalSchedulerConf yamlUnmarshal confStr).tiers = c.Tiers := by
  have hnc := (unmarshal_accepts_iff yamlUnmarshal confStr c hdec).1 hacc
  have hr := unmarshal_of_valid yamlUnmarshal confStr c hdec hnc
  rw [hr]

/-- Witness of C2: on the configuration of `TestLoadSchedulerConf` the returned
tiers are the deserialised ones, with nil flags, and differ from the
`expectedTiers` of the test. -/
theorem unmarshal_returns_tiers_as_decoded_witness :
    sampleDecoder testConfiguration = .ok testDocument ∧
      (unmarshalSchedulerConf sampleDecoder testConfiguration).err = none ∧
      (unmarshalSchedulerConf sampleDecoder testConfiguration).tiers = testDocument.Tiers ∧
      (unmarshalSchedulerConf sampleDecoder testConfiguration).tiers ≠ expectedTiers ∧
      (∀ t ∈ (unmarshalSchedulerConf sampleDecoder testConfiguration).tiers,
        ∀ p ∈ t.Plugins, p.EnabledJobOrder = none ∧ p.EnabledJobStarving = none) :=
  ⟨by rfl, by decide,
    unmarshal_returns_tiers_as_decoded sampleDecoder testConfiguration testDocument (by rfl)
      (by decide),
    by decide, by decide⟩

/-! ## The store -/

theorem bootstrapOnce_of_once {H : Type} (yamlUnmarshal : Decoder) (sc : SchedulerConfig H)
    (h : sc.once = true) : bootstrapOnce yamlUnmarshal sc = .ok sc := by
  simp [bootstrapOnce, h]

theorem load_of_read_error {H : Type} (yamlUnmarshal : Decoder) (disk : Disk)
    (sc : SchedulerConfig H) (hboot : sc.once = true) (hpath : sc.schedulerConf ≠ "")
    (e : String) (hread : disk sc.schedulerConf = .error e) :
    LoadSchedulerConf yamlUnmarshal disk sc = .ok sc := by
  have hlen : sc.schedulerConf.length ≠ 0 := by
    have := (string_length_pos_iff sc.schedulerConf).2 hpath
    omega
  simp [LoadSchedulerConf, bootstrapOnce_of_once yamlUnmarshal sc hboot, hlen,
    readSchedulerConf, hread]

theorem load_of_unmarshal_error {H : Type} (yamlUnmarshal : Decoder) (disk : Disk)
    (sc : SchedulerConfig H) (hboot : sc.once = true) (hpath : sc.schedulerConf ≠ "")
    (txt : String) (hread : disk sc.schedulerConf = .ok txt)
    (herr : (unmarshalSchedulerConf yamlUnmarshal txt).err ≠ none) :
    LoadSchedulerConf yamlUnmarshal disk sc = .ok sc := by
  have hlen : sc.schedulerConf.length ≠ 0 := by
    have := (string_length_pos_iff sc.schedulerConf).2 hpath
    omega
  cases he : (unmarshalSchedulerConf yamlUnmarshal txt).err with
  | none => exact absurd he herr
  | some e =>
    simp [LoadSchedulerConf, bootstrapOnce_of_once yamlUnmarshal sc hboot, hlen,
      readSchedulerConf, hread, he]

theorem load_of_once {H : Type} (yamlUnmarshal : Decoder) (disk : Disk)
    (sc : SchedulerConfig H) (hboot : sc.once = true) :
    ∃ sc', LoadSchedulerConf yamlUnmarshal disk sc = .ok sc' ∧ sc'.once = true ∧
      sc'.handlers = sc.handlers ∧ sc'.schedulerConf = sc.schedulerConf ∧
      sc'.fileWatcher = sc.fileWatcher := by
  simp only [LoadSchedulerConf, bootstrapOnce_of_once yamlUnmarshal sc hboot]
  split
  · exact ⟨sc, rfl, hboot, rfl, rfl, rfl⟩
  · split
    · exact ⟨sc, rfl, hboot, rfl, rfl, rfl⟩
    · exact ⟨_, rfl, hboot, rfl, rfl, rfl⟩

theorem load_result_bootstrapped {H : Type} (yamlUnmarshal : Decoder) (disk : Disk)
    (sc sc' : SchedulerConfig H) (h : LoadSchedulerConf yamlUnmarshal disk sc = .ok sc') :
    sc'.once = true ∧ sc'.handlers = sc.handlers ∧ sc'.schedulerConf = sc.schedulerConf ∧
      sc'.fileWatcher = sc.fileWatcher := by
  by_cases hboot : sc.once = true
  · obtain ⟨sc2, h2, hp⟩ := load_of_once yamlUnmarshal disk sc hboot
    rw [h2] at h
    cases h
    exact hp
  · simp only [LoadSchedulerConf, bootstrapOnce, hboot] at h
    revert h
    simp only [Bool.false_eq_true, if_false]
    split
    · intro h; cases h
    · rename_i sc1 hsc1
      split at hsc1
      · cases hsc1
      · cases hsc1
        split
        · intro h; cases h; exact ⟨rfl, rfl, rfl, rfl⟩
        · split
          · intro h; cases h; exact ⟨rfl, rfl, rfl, rfl⟩
          · intro h; cases h; exact ⟨rfl, rfl, rfl, rfl⟩

/-- The three ways a reload fails, for the file at `path`: the file cannot be
read, its text does not deserialise, or the document has a tier with the
drf-hierarchy/proportion conflict. -/
theorem load_of_failure {H : Type} (yamlUnmarshal : Decoder) (disk : Disk)
    (sc : SchedulerConfig H) (hboot : sc.once = true) (hpath : sc.schedulerConf ≠ "")
    (hfail : (∃ e, disk sc.schedulerConf = .error e) ∨
      (∃ txt e, disk sc.schedulerConf = .ok txt ∧ yamlUnmarshal txt = .error e) ∨
      (∃ txt c, disk sc.schedulerConf = .ok txt ∧ yamlUnmarshal txt = .ok c ∧
        ∃ t ∈ c.Tiers, TierConflict t)) :
    LoadSchedulerConf yamlUnmarshal disk sc = .ok sc := by
  rcases hfail with ⟨e, he⟩ | ⟨txt, e, hread, hdec⟩ | ⟨txt, c, hread, hdec, hcon⟩
  · exact load_of_read_error yamlUnmarshal disk sc hboot hpath e he
  · apply load_of_unmarshal_error yamlUnmarshal disk sc hboot hpath txt hread
    rw [unmarshal_of_decode_error yamlUnmarshal txt e hdec]
    simp
  · apply load_of_unmarshal_error yamlUnmarshal disk sc hboot hpath txt hread
    obtain ⟨e, he⟩ := unmarshal_of_conflict yamlUnmarshal txt c hdec hcon
    rw [he]
    simp

/-- A failing reload that follows any returned load leaves the store exactly
as that load left it. -/
theorem failed_reload_after_load {H : Type} (yamlUnmarshal : Decoder) (disk0 disk : Disk)
    (sc0 sc1 : SchedulerConfig H) (hpath : sc0.schedulerConf ≠ "")
    (hload : LoadSchedulerConf yamlUnmarshal disk0 sc0 = .ok sc1)
    (hfail : (∃ e, disk sc1.schedulerConf = .error e) ∨
      (∃ txt e, disk sc1.schedulerConf = .ok txt ∧ yamlUnmarshal txt = .error e) ∨
      (∃ txt c, disk sc1.schedulerConf = .ok txt ∧ yamlUnmarshal txt = .ok c ∧
        ∃ t ∈ c.Tiers, TierConflict t)) :
    LoadSchedulerConf yamlUnmarshal disk sc1 = .ok sc1 := by
  obtain ⟨honce, _, hconf, _⟩ := load_result_bootstrapped yamlUnmarshal disk0 sc0 sc1 hload
  exact load_of_failure yamlUnmarshal disk sc1 honce (by rw [hconf]; exact hpath) hfail

/-- C4: for an already-bootstrapped store with a configured file path, a call
of `LoadSchedulerConf` that fails, because the file cannot be read, or the
document does not deserialise, or some tier has the drf-hierarchy/proportion
conflict, returns normally and leaves `Actions`, `Plugins`, `Configurations`
and `NodeSelector` equal to their values before the call. -/
theorem failed_reload_keeps_policy {H : Type} (yamlUnmarshal : Decoder) (disk : Disk)
    (sc : SchedulerConfig H) (hboot : sc.once = true) (hpath : sc.schedulerConf ≠ "")
    (hfail : (∃ e, disk sc.schedulerConf = .error e) ∨
      (∃ txt e, disk sc.schedulerConf = .ok txt ∧ yamlUnmarshal txt = .error e) ∨
      (∃ txt c, disk sc.schedulerConf = .ok txt ∧ yamlUnmarshal txt = .ok c ∧
        ∃ t ∈ c.Tiers, TierConflict t)) :
    ∃ sc', LoadSchedulerConf yamlUnmarshal disk sc = .ok sc' ∧ sc'.Actions = sc.Actions ∧
      sc'.Plugins = sc.Plugins ∧ sc'.Configurations = sc.Configurations ∧
      sc'.NodeSelector = sc.NodeSelector :=
  ⟨sc, load_of_failure yamlUnmarshal disk sc hboot hpath hfail, rfl, rfl, rfl, rfl⟩

/-- Witness of C4: the store that has loaded the test configuration keeps that
policy, which differs from the embedded default, when the file is replaced
by a malformed one and reloaded. -/
theorem failed_reload_keeps_policy_witness :
    (NewSchedulerConf sampleDecoder validDisk sampleDirOf sampleNewFileWatcher samplePath =
        .ok loadedStore) ∧
      (∃ sc', LoadSchedulerConf sampleDecoder brokenDisk loadedStore = .ok sc' ∧
        sc'.Actions = loadedStore.Actions ∧ sc'.Plugins = loadedStore.Plugins ∧
        sc'.Configurations = loadedStore.Configurations ∧
        sc'.NodeSelector = loadedStore.NodeSelector) ∧
      loadedStore.NodeSelector ≠ (unmarshalSchedulerConf sampleDecoder defaultSchedulerConf).nodeSelector :=
  ⟨by rfl,
    failed_reload_keeps_policy sampleDecoder brokenDisk loadedStore rfl (by decide)
      (Or.inr (Or.inl ⟨"actions: [unclosed", "yaml: unmarshal errors", by rfl, by rfl⟩)),
    by decide⟩

theorem unmarshal_empty_document (yamlUnmarshal : Decoder) (confStr : String)
    (h : yamlUnmarshal confStr = .ok {}) :
    unmarshalSchedulerConf yamlUnmarshal confStr = ⟨[], [], [], none, none⟩ := by
  have hnc : ¬ ∃ t ∈ ({} : SchedulerConfiguration).Tiers, TierConflict t := by simp
  rw [unmarshal_of_valid yamlUnmarshal confStr {} h hnc]
  decide

/-- C1 (as the code behaves): when the empty text deserialises to the zero
document and the embedded default is accepted, `NewSchedulerConf("")` returns
a store whose `Actions`, `Plugins`, `Configurations` and `NodeSelector` are
all nil, although the embedded default has three actions: the call of
`LoadSchedulerConf` parses the empty configuration text, accepts it and
publishes it over the bootstrapped default; every later call leaves the
store at that empty policy. -/
theorem new_store_without_path_is_empty {H : Type} (yamlUnmarshal : Decoder) (disk : Disk)
    (dirOf : String → String) (newFileWatcher : String → Except String FileWatcher)
    (hempty : yamlUnmarshal "" = .ok {})
    (hdefault : yamlUnmarshal defaultSchedulerConf = .ok defaultDocument) :
    (unmarshalSchedulerConf yamlUnmarshal defaultSchedulerConf).err = none ∧
      (unmarshalSchedulerConf yamlUnmarshal defaultSchedulerConf).actions =
        ["enqueue", "allocate", "backfill"] ∧
      (unmarshalSchedulerConf yamlUnmarshal defaultSchedulerConf).tiers = defaultDocument.Tiers ∧
      ∃ sc : SchedulerConfig H,
        NewSchedulerConf yamlUnmarshal disk dirOf newFileWatcher "" = .ok sc ∧
          sc.Actions = [] ∧ sc.Plugins = [] ∧ sc.Configurations = [] ∧
          sc.NodeSelector = none ∧
          ∀ disk', LoadSchedulerConf yamlUnmarshal disk' sc = .ok sc := by
  have hnc : ¬ ∃ t ∈ defaultDocument.Tiers, TierConflict t := by
    simp [defaultDocument, TierConflict]
  have hd := unmarshal_of_valid yamlUnmarshal defaultSchedulerConf defaultDocument hdefault hnc
  have he := unmarshal_empty_document yamlUnmarshal "" hempty
  refine ⟨by rw [hd], ?_, by rw [hd], ?_⟩
  · rw [hd]
    decide
  · refine ⟨SchedulerConfig.mk true "" none [] [] [] none [], ?_, rfl, rfl, rfl, rfl, ?_⟩
    · simp [NewSchedulerConf, LoadSchedulerConf, bootstrapOnce, hd, he]
    · intro disk'
      simp [LoadSchedulerConf, bootstrapOnce, he]

/-- Witness of C1: the store built without a path, with the sample decoder. -/
theorem new_store_without_path_is_empty_witness :
    sampleDecoder "" = .ok {} ∧ sampleDecoder defaultSchedulerConf = .ok defaultDocument ∧
      (unmarshalSchedulerConf sampleDecoder defaultSchedulerConf).actions =
        ["enqueue", "allocate", "backfill"] ∧
      ∃ sc : SchedulerConfig Nat,
        NewSchedulerConf sampleDecoder emptyDisk sampleDirOf sampleNewFileWatcher "" = .ok sc ∧
          sc.Actions = [] ∧ sc.Plugins = [] ∧ sc.Configurations = [] ∧
          sc.NodeSelector = none ∧
          ∀ disk', LoadSchedulerConf sampleDecoder disk' sc = .ok sc :=
  ⟨by rfl, by rfl,
    (new_store_without_path_is_empty (H := Nat) sampleDecoder emptyDisk sampleDirOf
      sampleNewFileWatcher (by rfl) (by rfl)).2.1,
    (new_store_without_path_is_empty sampleDecoder emptyDisk sampleDirOf
      sampleNewFileWatcher (by rfl) (by rfl)).2.2.2⟩

/-! ## The watch loop -/

theorem callHandlers_calls {H : Type} (runHandler : H → SchedulerConfig H → SchedulerConfig H)
    (hs : List H) (sc : SchedulerConfig H) :
    (callHandlers runHandler hs sc).2 = hs.map WatchCall.handler ∧
      (callHandlers runHandler hs sc).1 = hs.foldl (fun s h => runHandler h s) sc := by
  induction hs generalizing sc with
  | nil => exact ⟨rfl, rfl⟩
  | cons h hs ih =>
    simp only [callHandlers, List.map_cons, List.foldl_cons]
    exact ⟨by rw [(ih _).1], (ih _).2⟩

theorem handlers_after_registrations {H : Type} (sc : SchedulerConfig H) (hs : List H) :
    (hs.foldl AddConfigChangeHandler sc).handlers = sc.handlers ++ hs ∧
      (hs.foldl AddConfigChangeHandler sc).once = sc.once := by
  induction hs generalizing sc with
  | nil => simp
  | cons h hs ih =>
    simp only [List.foldl_cons]
    rw [(ih _).1, (ih _).2]
    simp [AddConfigChangeHandler]

theorem isWriteOrCreate_iff (op : Nat) :
    isWriteOrCreate op = true ↔ op.testBit 1 = true ∨ op.testBit 0 = true := by
  have h1 : (op &&& 2 = 2) ↔ op.testBit 1 = true := by
    have := Nat.and_two_pow op 1
    simp only [pow_one] at this
    rw [this]
    cases op.testBit 1 <;> simp
  have h0 : (op &&& 1 = 1) ↔ op.testBit 0 = true := by
    have := Nat.and_two_pow op 0
    simp only [pow_zero] at this
    rw [this]
    cases op.testBit 0 <;> simp
  simp only [isWriteOrCreate, fsWrite, fsCreate, Bool.or_eq_true, beq_iff_eq, h1, h0]

/-! ### One event -/

theorem onEvent_of_once {H : Type} (yamlUnmarshal : Decoder)
    (runHandler : H → SchedulerConfig H → SchedulerConfig H) (op : Nat) (disk : Disk)
    (sc : SchedulerConfig H) (hboot : sc.once = true) :
    ∃ loaded, LoadSchedulerConf yamlUnmarshal disk sc = .ok loaded ∧ loaded.once = true ∧
      loaded.handlers = sc.handlers ∧
      onEvent yamlUnmarshal runHandler op disk sc =
        .ok (if isWriteOrCreate op = true then
            (sc.handlers.foldl (fun s h => runHandler h s) loaded,
              WatchCall.load :: sc.handlers.map WatchCall.handler)
          else (sc, [])) := by
  obtain ⟨loaded, hload, honce, hh, _, _⟩ := load_of_once yamlUnmarshal disk sc hboot
  refine ⟨loaded, hload, honce, hh, ?_⟩
  by_cases hop : isWriteOrCreate op = true
  · obtain ⟨hcalls, hstore⟩ := callHandlers_calls runHandler sc.handlers loaded
    simp only [onEvent, hop, if_true, hload, hh]
    by_cases hlen : sc.handlers.length > 0
    · simp only [hlen, if_true, hcalls, hstore]
    · have hnil : sc.handlers = [] := by
        cases hl : sc.handlers with
        | nil => rfl
        | cons a l => rw [hl] at hlen; simp at hlen
      simp [hnil]
  · simp [onEvent, hop]

theorem foldl_handlers_once {H : Type}
    (runHandler : H → SchedulerConfig H → SchedulerConfig H)
    (honce : ∀ h s, s.once = true → (runHandler h s).once = true) (hs : List H)
    (sc : SchedulerConfig H) (hboot : sc.once = true) :
    (hs.foldl (fun s h => runHandler h s) sc).once = true := by
  induction hs generalizing sc with
  | nil => exact hboot
  | cons h hs ih => exact ih _ (honce h sc hboot)

theorem foldl_handlers_keep {H : Type}
    (runHandler : H → SchedulerConfig H → SchedulerConfig H)
    (hkeep : ∀ h s, (runHandler h s).handlers = s.handlers) (hs : List H)
    (sc : SchedulerConfig H) :
    (hs.foldl (fun s h => runHandler h s) sc).handlers = sc.handlers := by
  induction hs generalizing sc with
  | nil => rfl
  | cons h hs ih =>
    simp only [List.foldl_cons]
    rw [ih, hkeep]

/-- One event on a bootstrapped store, when handlers cannot undo the
bootstrap: the event is handled without a panic, the store stays
bootstrapped, and handlers that register nothing leave the handler list as
it was. -/
theorem onEvent_invariant {H : Type} (yamlUnmarshal : Decoder)
    (runHandler : H → SchedulerConfig H → SchedulerConfig H)
    (honce : ∀ h s, s.once = true → (runHandler h s).once = true) (op : Nat) (disk : Disk)
    (sc : SchedulerConfig H) (hboot : sc.once = true) :
    ∃ out, onEvent yamlUnmarshal runHandler op disk sc = .ok (out, if isWriteOrCreate op = true
        then WatchCall.load :: sc.handlers.map WatchCall.handler else []) ∧
      out.once = true ∧
      ((∀ h s, (runHandler h s).handlers = s.handlers) → out.handlers = sc.handlers) := by
  obtain ⟨loaded, _, hlonce, hlh, hev⟩ :=
    onEvent_of_once yamlUnmarshal runHandler op disk sc hboot
  by_cases hop : isWriteOrCreate op = true
  · refine ⟨sc.handlers.foldl (fun s h => runHandler h s) loaded, ?_, ?_, ?_⟩
    · rw [hev]; simp [hop]
    · exact foldl_handlers_once runHandler honce _ _ hlonce
    · intro hkeep
      rw [foldl_handlers_keep runHandler hkeep, hlh]
  · refine ⟨sc, ?_, hboot, fun _ => rfl⟩
    rw [hev]; simp [hop]

/-! ### The loop -/

/-- The loop returns for every sequence of deliveries; the calls it has made
extend the calls made before, and the store stays bootstrapped. -/
theorem watchLoop_returns {H : Type} (yamlUnmarshal : Decoder)
    (runHandler : H → SchedulerConfig H → SchedulerConfig H)
    (honce : ∀ h s, s.once = true → (runHandler h s).once = true)
    (ds : List Delivery) (sc : SchedulerConfig H) (calls : List (WatchCall H))
    (hboot : sc.once = true) :
    ∃ final rest, watchLoop yamlUnmarshal runHandler ds sc calls = .ok (final, calls ++ rest) ∧
      final.once = true ∧
      ((∀ h s, (runHandler h s).handlers = s.handlers) → final.handlers = sc.handlers) := by
  induction ds generalizing sc calls with
  | nil => exact ⟨sc, [], by simp [watchLoop], hboot, fun _ => rfl⟩
  | cons d ds ih =>
    cases d with
    | event op disk =>
      obtain ⟨out, hev, hout, hkeepOut⟩ :=
        onEvent_invariant yamlUnmarshal runHandler honce op disk sc hboot
      obtain ⟨final, rest, hloop, hfin, hkeepFin⟩ := ih out (calls ++ (if isWriteOrCreate op = true
        then WatchCall.load :: sc.handlers.map WatchCall.handler else [])) hout
      refine ⟨final, (if isWriteOrCreate op = true
        then WatchCall.load :: sc.handlers.map WatchCall.handler else []) ++ rest, ?_, hfin, ?_⟩
      · simp only [watchLoop, hev]
        rw [hloop, List.append_assoc]
      · intro hkeep
        rw [hkeepFin hkeep, hkeepOut hkeep]
    | eventClosed => exact ⟨sc, [], by simp [watchLoop], hboot, fun _ => rfl⟩
    | error msg =>
      obtain ⟨final, rest, hloop, hfin, hkeepFin⟩ := ih sc calls hboot
      exact ⟨final, rest, by simp only [watchLoop]; exact hloop, hfin, hkeepFin⟩
    | errorClosed => exact ⟨sc, [], by simp [watchLoop], hboot, fun _ => rfl⟩
    | stop => exact ⟨sc, [], by simp [watchLoop], hboot, fun _ => rfl⟩

/-- Deliveries that leave the loop running are handled one after the other:
the loop on `pre ++ post` continues on `post` from where it stands after
`pre`. -/
theorem watchLoop_append {H : Type} (yamlUnmarshal : Decoder)
    (runHandler : H → SchedulerConfig H → SchedulerConfig H)
    (pre post : List Delivery) (hpre : ∀ d ∈ pre, d.continues = true)
    (sc mid : SchedulerConfig H) (calls midCalls : List (WatchCall H))
    (h : watchLoop yamlUnmarshal runHandler pre sc calls = .ok (mid, midCalls)) :
    watchLoop yamlUnmarshal runHandler (pre ++ post) sc calls =
      watchLoop yamlUnmarshal runHandler post mid midCalls := by
  induction pre generalizing sc calls with
  | nil =>
    simp only [watchLoop, Except.ok.injEq, Prod.mk.injEq] at h
    obtain ⟨h1, h2⟩ := h
    subst h1
    subst h2
    rfl
  | cons d pre ih =>
    have hrest : ∀ d ∈ pre, d.continues = true := fun x hx => hpre x (List.mem_cons_of_mem _ hx)
    have hd := hpre d (List.mem_cons_self _ _)
    cases d with
    | event op disk =>
      simp only [List.cons_append, watchLoop] at h ⊢
      cases hev : onEvent yamlUnmarshal runHandler op disk sc with
      | error f => rw [hev] at h; cases h
      | ok out =>
        rw [hev] at h
        simp only at h ⊢
        exact ih hrest out.1 (calls ++ out.2) h
    | error msg =>
      simp only [List.cons_append, watchLoop] at h ⊢
      exact ih hrest sc calls h
    | eventClosed => cases hd
    | errorClosed => cases hd
    | stop => cases hd

/-- C9: for a bootstrapped store, registrations `h1..hn` leave the handler list
equal to the earlier handlers followed by `h1..hn`; an event with the write
or the create bit makes the watch loop call `LoadSchedulerConf` once, which
returns whatever the file system holds and keeps the handler list, and then
call every registered handler once with the store, in registration order;
an event with neither bit causes no call and leaves the store as it is.
`WatchSchedulerConf` handles a delivered event in this way, and the test on
the event is that bit 1 (write) or bit 0 (create) of its mask is set.
The same holds for an event at any place of the sequence of deliveries of a
store with a watcher: after earlier events and watcher errors `pre`, none of
which ends the loop, the loop has returned no panic and stands at a
bootstrapped store `before`; the event then adds to the calls made so far
exactly one reload followed by one call of each handler of `before`, in
order, when it is a write or a create, and nothing otherwise; whatever is
delivered later, the loop returns and its calls begin with those calls.
Handlers that register no handler leave the list of `before` equal to the
registered one. Handlers are assumed not to undo the bootstrap, which no
code outside the store can do. -/
theorem watch_event_reloads_then_calls_handlers {H : Type} (yamlUnmarshal : Decoder)
    (runHandler : H → SchedulerConfig H → SchedulerConfig H) (sc0 : SchedulerConfig H)
    (hs : List H) (op : Nat) (disk : Disk) (hboot : sc0.once = true) :
    (hs.foldl AddConfigChangeHandler sc0).handlers = sc0.handlers ++ hs ∧
      (isWriteOrCreate op = true →
        ∃ loaded,
          LoadSchedulerConf yamlUnmarshal disk (hs.foldl AddConfigChangeHandler sc0) =
              .ok loaded ∧
            loaded.handlers = sc0.handlers ++ hs ∧
            onEvent yamlUnmarshal runHandler op disk (hs.foldl AddConfigChangeHandler sc0) =
              .ok ((sc0.handlers ++ hs).foldl (fun s h => runHandler h s) loaded,
                WatchCall.load :: (sc0.handlers ++ hs).map WatchCall.handler)) ∧
      (isWriteOrCreate op = false →
        onEvent yamlUnmarshal runHandler op disk (hs.foldl AddConfigChangeHandler sc0) =
          .ok (hs.foldl AddConfigChangeHandler sc0, [])) ∧
      ((hs.foldl AddConfigChangeHandler sc0).fileWatcher ≠ none →
        WatchSchedulerConf yamlUnmarshal runHandler [Delivery.event op disk]
            (hs.foldl AddConfigChangeHandler sc0) =
          onEvent yamlUnmarshal runHandler op disk (hs.foldl AddConfigChangeHandler sc0)) ∧
      (isWriteOrCreate op = true ↔ op.testBit 1 = true ∨ op.testBit 0 = true) ∧
      (∀ pre post : List Delivery,
        (hs.foldl AddConfigChangeHandler sc0).fileWatcher ≠ none →
        (∀ d ∈ pre, d.continues = true) →
        (∀ h s, s.once = true → (runHandler h s).once = true) →
        ∃ before callsBefore after,
          WatchSchedulerConf yamlUnmarshal runHandler pre
              (hs.foldl AddConfigChangeHandler sc0) = .ok (before, callsBefore) ∧
            before.once = true ∧
            ((∀ h s, (runHandler h s).handlers = s.handlers) →
              before.handlers = sc0.handlers ++ hs) ∧
            (∃ loaded, LoadSchedulerConf yamlUnmarshal disk before = .ok loaded ∧
              loaded.handlers = before.handlers ∧
              onEvent yamlUnmarshal runHandler op disk before =
                .ok (if isWriteOrCreate op = true then
                    (before.handlers.foldl (fun s h => runHandler h s) loaded,
                      WatchCall.load :: before.handlers.map WatchCall.handler)
                  else (before, []))) ∧
            WatchSchedulerConf yamlUnmarshal runHandler (pre ++ [Delivery.event op disk])
                (hs.foldl AddConfigChangeHandler sc0) =
              .ok (after, callsBefore ++
                (if isWriteOrCreate op = true then
                  WatchCall.load :: before.handlers.map WatchCall.handler else [])) ∧
            ∃ final rest,
              WatchSchedulerConf yamlUnmarshal runHandler (pre ++ Delivery.event op disk :: post)
                  (hs.foldl AddConfigChangeHandler sc0) =
                .ok (final, callsBefore ++
                  (if isWriteOrCreate op = true then
                    WatchCall.load :: before.handlers.map WatchCall.handler else []) ++ rest)) := by
  obtain ⟨hreg, honce0⟩ := handlers_after_registrations sc0 hs
  have hboot1 : (hs.foldl AddConfigChangeHandler sc0).once = true := by
    rw [honce0]; exact hboot
  refine ⟨hreg, ?_, ?_, ?_, isWriteOrCreate_iff op, ?_⟩
  · intro hop
    obtain ⟨loaded, hload, _, hh, hev⟩ :=
      onEvent_of_once yamlUnmarshal runHandler op disk _ hboot1
    rw [hreg] at hh hev
    refine ⟨loaded, hload, hh, ?_⟩
    rw [hev]; simp [hop]
  · intro hop
    simp [onEvent, hop]
  · intro hw
    simp only [WatchSchedulerConf, hw, if_false, watchLoop]
    cases onEvent yamlUnmarshal runHandler op disk (hs.foldl AddConfigChangeHandler sc0) with
    | error f => rfl
    | ok out => simp [watchLoop]
  · intro pre post hw hpre honce
    obtain ⟨before, callsBefore, hloopPre, hbefore, hkeepBefore⟩ :=
      watchLoop_returns yamlUnmarshal runHandler honce pre _ [] hboot1
    simp only [List.nil_append] at hloopPre
    obtain ⟨after, hev, hafter, _⟩ :=
      onEvent_invariant yamlUnmarshal runHandler honce op disk before hbefore
    obtain ⟨loaded, hload, _, hlh, hev2⟩ :=
      onEvent_of_once yamlUnmarshal runHandler op disk before hbefore
    have hone : watchLoop yamlUnmarshal runHandler [Delivery.event op disk] before callsBefore =
        .ok (after, callsBefore ++ (if isWriteOrCreate op = true then
          WatchCall.load :: before.handlers.map WatchCall.handler else [])) := by
      simp [watchLoop, hev]
    obtain ⟨final, rest, hloopPost, _, _⟩ :=
      watchLoop_returns yamlUnmarshal runHandler honce post after
        (callsBefore ++ (if isWriteOrCreate op = true then
          WatchCall.load :: before.handlers.map WatchCall.handler else [])) hafter
    have hcons : watchLoop yamlUnmarshal runHandler (Delivery.event op disk :: post) before
        callsBefore = .ok (final, callsBefore ++ (if isWriteOrCreate op = true then
          WatchCall.load :: before.handlers.map WatchCall.handler else []) ++ rest) := by
      simp only [watchLoop, hev]
      exact hloopPost
    refine ⟨before, callsBefore, after, ?_, hbefore, ?_, ⟨loaded, hload, hlh, hev2⟩, ?_,
      final, rest, ?_⟩
    · simp only [WatchSchedulerConf, hw, if_false]
      exact hloopPre
    · intro hkeep
      rw [hkeepBefore hkeep, hreg]
    · simp only [WatchSchedulerConf, hw, if_false]
      rw [watchLoop_append yamlUnmarshal runHandler pre _ hpre _ before [] callsBefore hloopPre]
      exact hone
    · simp only [WatchSchedulerConf, hw, if_false]
      rw [watchLoop_append yamlUnmarshal runHandler pre _ hpre _ before [] callsBefore hloopPre]
      exact hcons

/-- Witness of C9: three handlers registered on the loaded store; a write event
whose reload fails calls the reload and then the three handlers in order, a
remove event calls nothing; a create event that arrives after a write, a
watcher error and a remove adds one reload and the three handler calls to
the four calls of the first write, and a later write adds four more before
the stop signal ends the loop. -/
theorem watch_event_reloads_then_calls_handlers_witness :
    loadedStore.once = true ∧
      isWriteOrCreate fsWrite = true ∧
      (∃ loaded,
        LoadSchedulerConf sampleDecoder brokenDisk
            ([1, 2, 3].foldl AddConfigChangeHandler loadedStore) = .ok loaded ∧
          loaded.handlers = loadedStore.handlers ++ [1, 2, 3] ∧
          onEvent sampleDecoder (fun _ s => s) fsWrite brokenDisk
              ([1, 2, 3].foldl AddConfigChangeHandler loadedStore) =
            .ok ((loadedStore.handlers ++ [1, 2, 3]).foldl (fun s h => (fun _ s => s) h s) loaded,
              WatchCall.load :: (loadedStore.handlers ++ [1, 2, 3]).map WatchCall.handler)) ∧
      (loadedStore.handlers ++ [1, 2, 3]).map WatchCall.handler =
        [WatchCall.handler 1, WatchCall.handler 2, WatchCall.handler 3] ∧
      isWriteOrCreate 4 = false ∧
      onEvent sampleDecoder (fun _ s => s) 4 validDisk
          ([1, 2, 3].foldl AddConfigChangeHandler loadedStore) =
        .ok ([1, 2, 3].foldl AddConfigChangeHandler loadedStore, []) ∧
      (∃ before callsBefore after,
        WatchSchedulerConf sampleDecoder (fun _ s => s) sampleEarlier
            ([1, 2, 3].foldl AddConfigChangeHandler loadedStore) = .ok (before, callsBefore) ∧
          before.once = true ∧
          ((∀ (h : Nat) (s : SchedulerConfig Nat), ((fun _ s => s) h s).handlers = s.handlers) →
            before.handlers = loadedStore.handlers ++ [1, 2, 3]) ∧
          (∃ loaded, LoadSchedulerConf sampleDecoder brokenDisk before = .ok loaded ∧
            loaded.handlers = before.handlers ∧
            onEvent sampleDecoder (fun _ s => s) fsCreate brokenDisk before =
              .ok (if isWriteOrCreate fsCreate = true then
                  (before.handlers.foldl (fun s h => (fun _ s => s) h s) loaded,
                    WatchCall.load :: before.handlers.map WatchCall.handler)
                else (before, []))) ∧
          WatchSchedulerConf sampleDecoder (fun _ s => s)
              (sampleEarlier ++ [Delivery.event fsCreate brokenDisk])
              ([1, 2, 3].foldl AddConfigChangeHandler loadedStore) =
            .ok (after, callsBefore ++
              (if isWriteOrCreate fsCreate = true then
                WatchCall.load :: before.handlers.map WatchCall.handler else [])) ∧
          ∃ final rest,
            WatchSchedulerConf sampleDecoder (fun _ s => s)
                (sampleEarlier ++ Delivery.event fsCreate brokenDisk :: sampleLater)
                ([1, 2, 3].foldl AddConfigChangeHandler loadedStore) =
              .ok (final, callsBefore ++
                (if isWriteOrCreate fsCreate = true then
                  WatchCall.load :: before.handlers.map WatchCall.handler else []) ++ rest)) ∧
      (WatchSchedulerConf sampleDecoder (fun _ s => s)
          (sampleEarlier ++ Delivery.event fsCreate brokenDisk :: sampleLater)
          ([1, 2, 3].foldl AddConfigChangeHandler loadedStore)).map Prod.snd =
        .ok [WatchCall.load, WatchCall.handler 1, WatchCall.handler 2, WatchCall.handler 3,
          WatchCall.load, WatchCall.handler 1, WatchCall.handler 2, WatchCall.handler 3,
          WatchCall.load, WatchCall.handler 1, WatchCall.handler 2, WatchCall.handler 3] :=
  ⟨rfl, by decide,
    (watch_event_reloads_then_calls_handlers sampleDecoder (fun _ s => s) loadedStore [1, 2, 3]
      fsWrite brokenDisk rfl).2.1 (by decide),
    by decide, by decide,
    (watch_event_reloads_then_calls_handlers sampleDecoder (fun _ s => s) loadedStore [1, 2, 3]
      4 validDisk rfl).2.2.1 (by decide),
    (watch_event_reloads_then_calls_handlers sampleDecoder (fun _ s => s) loadedStore [1, 2, 3]
      fsCreate brokenDisk rfl).2.2.2.2.2 sampleEarlier sampleLater (by decide)
      (by simp [sampleEarlier, Delivery.continues]) (fun _ _ h => h),
    by rfl⟩

/-! ## The scheduling cycle -/

theorem runActions_eq {C A : Type} (reg : Registry A) (names : List String) :
    (runActions reg names : List (Effect C A)) =
      ((names.filterMap reg.GetAction).map fun a =>
        [Effect.execute a, Effect.updateActionDuration (reg.Name a)]).flatten := by
  induction names with
  | nil => rfl
  | cons n names ih =>
    simp only [runActions]
    cases hg : reg.GetAction n with
    | none => simp [List.filterMap_cons, hg, ih]
    | some a => simp [List.filterMap_cons, hg, ih]

theorem runActions_observed {C A : Type} (reg : Registry A) (names : List String) :
    (runActions reg names : List (Effect C A)).filterMap Effect.executed =
        names.filterMap reg.GetAction ∧
      (runActions reg names : List (Effect C A)).filterMap Effect.durationName =
        (names.filterMap reg.GetAction).map reg.Name ∧
      ∀ e ∈ (runActions reg names : List (Effect C A)),
        e.isOpen = false ∧ e.isClose = false ∧ e.isE2e = false := by
  induction names with
  | nil => simp [runActions]
  | cons n names ih =>
    simp only [runActions]
    cases hg : reg.GetAction n with
    | none => simpa [List.filterMap_cons, hg] using ih
    | some a =>
      obtain ⟨h1, h2, h3⟩ := ih
      refine ⟨?_, ?_, ?_⟩
      · simp [List.filterMap_cons, hg, Effect.executed, h1]
      · simp [List.filterMap_cons, hg, Effect.durationName, h2]
      · intro e he
        simp only [List.mem_cons] at he
        rcases he with he | he | he
        · subst he; exact ⟨rfl, rfl, rfl⟩
        · subst he; exact ⟨rfl, rfl, rfl⟩
        · exact h3 e he

/-- C7: one `runOnce` executes exactly the actions that the registry finds for
the names of the published list, once per occurrence and in the order of the
list; each execution is directly followed by one action-duration record
under the name of the executed action; names that the registry does not
find leave no call; exactly one cycle duration is recorded. With actions
`a`, `b` and only `a` registered, `a` is executed once, with one action
duration for `a` and one cycle duration. -/
theorem runOnce_executes_registered_actions {C A H : Type} (reg : Registry A)
    (pc : Scheduler C H) :
    (runOnce reg pc).filterMap Effect.executed =
        pc.schedulerConfig.Actions.filterMap reg.GetAction ∧
      (runOnce reg pc).filterMap Effect.durationName =
        (pc.schedulerConfig.Actions.filterMap reg.GetAction).map reg.Name ∧
      ((runOnce reg pc).filter Effect.isE2e).length = 1 ∧
      runOnce reg pc =
        Effect.openSession pc.cache pc.schedulerConfig.Plugins pc.schedulerConfig.Configurations ::
          (((pc.schedulerConfig.Actions.filterMap reg.GetAction).map fun a =>
              [Effect.execute a, Effect.updateActionDuration (reg.Name a)]).flatten ++
            [Effect.updateE2eDuration, Effect.closeSession]) ∧
      runOnce sampleRegistry sampleScheduler =
        [Effect.openSession () [] [], Effect.execute "a", Effect.updateActionDuration "a",
          Effect.updateE2eDuration, Effect.closeSession] := by
  obtain ⟨h1, h2, h3⟩ := runActions_observed (C := C) reg pc.schedulerConfig.Actions
  refine ⟨?_, ?_, ?_, ?_, by decide⟩
  · simp [runOnce, List.filterMap_append, List.filterMap_cons, Effect.executed, h1]
  · simp [runOnce, List.filterMap_append, List.filterMap_cons, Effect.durationName, h2]
  · have hnil : (runActions reg pc.schedulerConfig.Actions : List (Effect C A)).filter
        Effect.isE2e = [] := by
      rw [List.filter_eq_nil_iff]
      intro e he
      simp [(h3 e he).2.2]
    simp [runOnce, List.filter_cons, List.filter_append, Effect.isE2e, hnil]
  · simp [runOnce, runActions_eq]

/-- C8 (as the claim states it) fails: in the cycle of the sample scheduler the
session is not closed before the cycle duration is recorded. -/
theorem close_does_not_precede_record :
    ¬ occursBefore Effect.isClose Effect.isE2e (runOnce sampleRegistry sampleScheduler) ∧
      occursBefore Effect.isE2e Effect.isClose (runOnce sampleRegistry sampleScheduler) := by
  constructor
  · decide
  · exact ⟨3, by decide, 4, by decide, by decide, rfl, rfl⟩

/-- C8 (amended): every `runOnce` opens the session exactly once, as its first
call and so before any action executes, and closes it exactly once, as its
last call, after the last action has executed and directly after the cycle
duration has been recorded (the close is deferred to the return of the
function). -/
theorem runOnce_opens_first_closes_last {C A H : Type} (reg : Registry A)
    (pc : Scheduler C H) :
    ∃ mid : List (Effect C A),
      runOnce reg pc =
        Effect.openSession pc.cache pc.schedulerConfig.Plugins pc.schedulerConfig.Configurations ::
          (mid ++ [Effect.updateE2eDuration, Effect.closeSession]) ∧
        (∀ e ∈ mid, e.isOpen = false ∧ e.isClose = false ∧ e.isE2e = false) ∧
        mid.filterMap Effect.executed = pc.schedulerConfig.Actions.filterMap reg.GetAction ∧
        ((runOnce reg pc).filter Effect.isOpen).length = 1 ∧
        ((runOnce reg pc).filter Effect.isClose).length = 1 := by
  obtain ⟨h1, _, h3⟩ := runActions_observed (C := C) reg pc.schedulerConfig.Actions
  have hopen : (runActions reg pc.schedulerConfig.Actions : List (Effect C A)).filter
      Effect.isOpen = [] := by
    rw [List.filter_eq_nil_iff]
    intro e he
    simp [(h3 e he).1]
  have hclose : (runActions reg pc.schedulerConfig.Actions : List (Effect C A)).filter
      Effect.isClose = [] := by
    rw [List.filter_eq_nil_iff]
    intro e he
    simp [(h3 e he).2.1]
  refine ⟨runActions reg pc.schedulerConfig.Actions, ?_, h3, h1, ?_, ?_⟩
  · simp [runOnce]
  · simp [runOnce, List.filter_cons, List.filter_append, Effect.isOpen, hopen]
  · simp [runOnce, List.filter_cons, List.filter_append, Effect.isClose, hclose]

/-! ## Locking -/

/-- Had the snapshot been taken under the mutex of the `SchedulerConfig`, the
one the publish step locks, no schedule could tear it: in every run in which
both sections reach their end the cycle holds the old or the new policy. -/
theorem shared_mutex_excludes_tearing (old new : Interleaving.Policy)
    (schedule : List Interleaving.Thread) (final : Interleaving.Machine)
    (h : Interleaving.run schedule
      (Interleaving.start (Interleaving.snapshotUnder Interleaving.Mutex.config) old new) =
        some final)
    (hfin : final.finished = true) :
    final.locals = old.snapshot ∨ final.locals = new.snapshot := by
  simp only [Interleaving.start, Interleaving.snapshotUnder, Interleaving.loadPublish] at h
  iterate 12
    all_goals
      rcases schedule with _ | ⟨t, schedule⟩
      · simp only [Interleaving.run, Option.some.injEq] at h
        subst h
        simp [Interleaving.Machine.finished, Interleaving.Policy.snapshot] at hfin ⊢
      cases t <;>
        simp [Interleaving.run, Interleaving.step, Interleaving.exec,
          Interleaving.Machine.holder, Interleaving.Machine.setHolder] at h

/-- C10 (as the code behaves): the snapshot of `runOnce` locks the mutex of the
`Scheduler` while the publish step of `LoadSchedulerConf` locks the mutex of
the `SchedulerConfig`, so neither excludes the other: for every old and new
policy there is a schedule in which both sections run to their end and the
cycle holds the old `Actions` together with the new `Plugins` and
`Configurations`; for the sample policies that snapshot is neither the old
nor the new one. -/
theorem snapshot_can_tear (old new : Interleaving.Policy) :
    Interleaving.Instr.lock Interleaving.Mutex.scheduler ∈ Interleaving.runOnceSnapshot ∧
      Interleaving.Instr.lock Interleaving.Mutex.config ∈ Interleaving.loadPublish ∧
      Interleaving.Instr.lock Interleaving.Mutex.config ∉ Interleaving.runOnceSnapshot ∧
      (∃ final,
        Interleaving.run tearingSchedule
            (Interleaving.start Interleaving.runOnceSnapshot old new) = some final ∧
          final.finished = true ∧ final.published = new ∧
          final.locals = ⟨old.Actions, new.Plugins, new.Configurations⟩) ∧
      (∃ final,
        Interleaving.run tearingSchedule
            (Interleaving.start Interleaving.runOnceSnapshot oldPolicy newPolicy) = some final ∧
          final.finished = true ∧ final.locals ≠ oldPolicy.snapshot ∧
          final.locals ≠ newPolicy.snapshot) := by
  refine ⟨by decide, by decide, by decide, ⟨_, rfl, rfl, rfl, rfl⟩, ⟨_, rfl, rfl, ?_, ?_⟩⟩
  · decide
  · decide

end Volcano
